import Mathlib

/-!
# Verification of the tidesdb admintool storage-inspection engine

Shallow embedding of `src/main.c`'s offline inspection / integrity-verification
engine: the bounded varint codec (`decode_varint_safe`), the record decoder used
by the table and log walkers, the positional block scanner used by the checksum
and full-dump commands, the value-log resolver (`read_vlog_value`), the bloom
filter inspector and the WAL integrity scanner (`cmd_wal_verify`).

Modelling conventions:
* bytes are `Nat`; a read of a `uint8_t` from modelled memory reduces mod 256
  (`byteAt`), matching the C type;
* 64-bit unsigned arithmetic is `Nat` with explicit `% 2 ^ 64` where the C
  computation can wrap;
* a file (or a block payload) is a `List Nat`; a `pread` at offset `o` of `n`
  bytes succeeds exactly when `o + n` is within the file, mirroring the
  `nread != n` short-read checks in the C code;
* the 32-bit block digest (`XXH32`, an external library) is an opaque
  parameter `checksum : List Nat → Nat` of every function that uses it: none
  of the verified properties depend on the digest's internals;
* the block-manager cursor (external library) is modelled as the list of the
  blocks it yields, each with its byte position where the code reads
  `cursor->current_pos`.
-/

namespace Admintool

/-- One `uint8_t` read from modelled memory (reads reduce mod 256). -/
def byteAt (data : List Nat) (i : Nat) : Nat := data.getD i 0 % 256

/-- Little-endian decode of `n` bytes at `off`.  Models `decode_uint32_le`
(declared in the external tidesdb compat header; the spec fixes the layout as
4-byte little-endian) and the `memcpy` of the 8-byte TTL field. -/
def leDecode (data : List Nat) (off : Nat) : Nat → Nat
  | 0 => 0
  | n + 1 => byteAt data off + 256 * leDecode data (off + 1) n

/-- Loop of `decode_varint_safe` (src/main.c:948-955): `i` is the loop index,
`bound = min max_bytes 10` the loop bound, `shift`/`acc` the shift counter and
the accumulated `*value` (a `uint64_t`, hence the `% 2 ^ 64` truncation of each
OR-ed term). Returns `some (bytes_read, value)` on the clear-continuation-bit
exit, `none` for the C function's `-1`. -/
def varintGo (data : List Nat) (off bound i shift acc : Nat) : Option (Nat × Nat) :=
  if i < bound then
    if byteAt data (off + i) < 128 then
      some (i + 1, acc ||| (((byteAt data (off + i) % 128) <<< shift) % 2 ^ 64))
    else
      varintGo data off bound (i + 1) (shift + 7)
        (acc ||| (((byteAt data (off + i) % 128) <<< shift) % 2 ^ 64))
  else none
termination_by bound - i

/-- `decode_varint_safe` (src/main.c:943-957) reading at pointer `data + off`
with budget `max_bytes`: the C loop runs while `i < max_bytes && i < 10`. -/
def decode_varint_safe (data : List Nat) (off max_bytes : Nat) : Option (Nat × Nat) :=
  varintGo data off (min max_bytes 10) 0 0 0

/-- Modelled from the spec (§8): the synthetic base-128 varint encoder used
only to state round-trip and truncation properties; the tool itself only
decodes. Low 7 bits first, continuation bit `0x80` on every byte but the
last. -/
def encodeVarint (v : Nat) : List Nat :=
  if v < 128 then [v] else (v % 128 + 128) :: encodeVarint (v / 128)
termination_by v
decreasing_by simp_wf; exact Nat.div_lt_self (by omega) (by norm_num)

theorem encodeVarint_ne_nil (v : Nat) : encodeVarint v ≠ [] := by
  rw [encodeVarint]; split
  · simp
  · simp

theorem encodeVarint_length_pos (v : Nat) : 0 < (encodeVarint v).length :=
  List.length_pos.mpr (encodeVarint_ne_nil v)

/-- Every byte of an encoding is a byte (< 256). -/
theorem encodeVarint_byte_lt (v : Nat) : ∀ j, (encodeVarint v).getD j 0 < 256 := by
  induction v using Nat.strong_induction_on with
  | _ v ih =>
    intro j
    rw [encodeVarint]
    split
    · cases j
      · simp_all; omega
      · simp_all
    · cases j with
      | zero => simp; omega
      | succ j =>
        simpa using ih (v / 128) (Nat.div_lt_self (by omega) (by norm_num)) j

/-- Every byte of an encoding except the last has the continuation bit set. -/
theorem encodeVarint_prefix_byte (v : Nat) :
    ∀ j, j + 1 < (encodeVarint v).length → 128 ≤ (encodeVarint v).getD j 0 := by
  induction v using Nat.strong_induction_on with
  | _ v ih =>
    intro j hj
    rw [encodeVarint] at hj ⊢
    by_cases h : v < 128
    · simp [h] at hj
    · simp only [if_neg h] at hj ⊢
      cases j with
      | zero => simp
      | succ j =>
        simp only [List.length_cons, List.getD_cons_succ] at hj ⊢
        exact ih (v / 128) (Nat.div_lt_self (by omega) (by norm_num)) j (by omega)

/-- The last byte of an encoding has the continuation bit clear. -/
theorem encodeVarint_last_byte (v : Nat) :
    (encodeVarint v).getD ((encodeVarint v).length - 1) 0 < 128 := by
  induction v using Nat.strong_induction_on with
  | _ v ih =>
    rw [encodeVarint]
    split
    · simpa
    · have h1 : 0 < (encodeVarint (v / 128)).length := encodeVarint_length_pos _
      simp only [List.length_cons]
      have : (v % 128 + 128) :: encodeVarint (v / 128) =
          [v % 128 + 128] ++ encodeVarint (v / 128) := rfl
      rw [this]
      rw [List.getD_eq_getElem?_getD, Nat.add_sub_cancel,
        List.getElem?_append_right (by simpa using h1)]
      simp only [List.length_singleton]
      rw [← List.getD_eq_getElem?_getD]
      have := ih (v / 128) (Nat.div_lt_self (by omega) (by norm_num))
      convert this using 2

/-- Length of an encoding: at most `k + 1` digits for values below `128^(k+1)`. -/
theorem encodeVarint_length_le (k : Nat) :
    ∀ v, v < 128 ^ (k + 1) → (encodeVarint v).length ≤ k + 1 := by
  induction k with
  | zero =>
    intro v hv
    rw [encodeVarint]
    have : v < 128 := by simpa using hv
    simp [this]
  | succ k ih =>
    intro v hv
    rw [encodeVarint]
    split
    · simp
    · simp only [List.length_cons]
      have : v / 128 < 128 ^ (k + 1) := by
        apply Nat.div_lt_of_lt_mul
        calc v < 128 ^ (k + 2) := hv
        _ = 128 * 128 ^ (k + 1) := by rw [pow_succ, Nat.mul_comm]
      have := ih (v / 128) this
      omega

/-- A 64-bit value encodes in at most 10 bytes. -/
theorem encodeVarint_length_le_ten {v : Nat} (hv : v < 2 ^ 64) :
    (encodeVarint v).length ≤ 10 := by
  have : v < 128 ^ 10 := lt_of_lt_of_le hv (by norm_num)
  simpa using encodeVarint_length_le 9 v this

/-! ## Varint codec lemmas -/

/-- OR-ing in a value shifted wholly above `x`'s bits is addition. -/
theorem or_shiftLeft_eq_add : ∀ (n : Nat) {x : Nat} (y : Nat), x < 2 ^ n →
    x ||| (y <<< n) = x + y <<< n := by
  intro n
  induction n with
  | zero =>
    intro x y h
    have hx : x = 0 := by omega
    subst hx
    simp
  | succ n ih =>
    intro x y h
    have hshift : y <<< (n + 1) = 2 * (y <<< n) := by
      rw [Nat.shiftLeft_eq, Nat.shiftLeft_eq, pow_succ]
      ring
    have hdiv : (x ||| y <<< (n + 1)) / 2 = x / 2 ||| (y <<< n) := by
      rw [Nat.or_div_two, hshift, Nat.mul_div_cancel_left _ (by norm_num)]
    have hx2 : x / 2 < 2 ^ n := by
      have h2 : x < 2 ^ n * 2 := by rw [← pow_succ]; exact h
      omega
    have heven : (y <<< (n + 1)) % 2 = 0 := by
      rw [hshift]
      omega
    have hmod : (x ||| y <<< (n + 1)) % 2 = x % 2 := by
      rcases Nat.mod_two_eq_zero_or_one x with hx | hx
      · have hne : ¬ ((x ||| y <<< (n + 1)) % 2 = 1) := by
          rw [Nat.or_mod_two_eq_one]
          omega
        omega
      · have : (x ||| y <<< (n + 1)) % 2 = 1 := by
          rw [Nat.or_mod_two_eq_one]
          left
          exact hx
        omega
    have hIH := ih y hx2
    have hdm : 2 * ((x ||| y <<< (n + 1)) / 2) + (x ||| y <<< (n + 1)) % 2 =
        (x ||| y <<< (n + 1)) := Nat.div_add_mod _ 2
    have hdmx : 2 * (x / 2) + x % 2 = x := Nat.div_add_mod x 2
    rw [hdiv, hmod, hIH] at hdm
    omega

/-- On success the varint loop consumed at least one and at most `bound` bytes. -/
theorem varintGo_some_bound {data : List Nat} {off bound : Nat} :
    ∀ {i shift acc n v}, varintGo data off bound i shift acc = some (n, v) →
      i < n ∧ n ≤ bound := by
  intro i shift acc n v h
  induction i, shift, acc using varintGo.induct data off bound with
  | case1 i shift acc hi hb =>
    rw [varintGo, if_pos hi, if_pos hb] at h
    simp only [Option.some.injEq, Prod.mk.injEq] at h
    omega
  | case2 i shift acc hi hb ih =>
    rw [varintGo, if_pos hi, if_neg hb] at h
    have := ih h
    omega
  | case3 i shift acc hi =>
    rw [varintGo, if_neg hi] at h
    simp at h

/-- The varint loop fails exactly when every remaining byte of the window has
the continuation bit set. -/
theorem varintGo_none_iff {data : List Nat} {off bound : Nat} :
    ∀ {i shift acc}, varintGo data off bound i shift acc = none ↔
      ∀ j, i ≤ j → j < bound → 128 ≤ byteAt data (off + j) := by
  intro i shift acc
  induction i, shift, acc using varintGo.induct data off bound with
  | case1 i shift acc hi hb =>
    rw [varintGo, if_pos hi, if_pos hb]
    constructor
    · intro h
      simp at h
    · intro h
      have := h i le_rfl hi
      omega
  | case2 i shift acc hi hb ih =>
    rw [varintGo, if_pos hi, if_neg hb]
    rw [ih]
    constructor
    · intro h j hij hjb
      rcases Nat.eq_or_lt_of_le hij with rfl | hlt
      · omega
      · exact h j hlt hjb
    · intro h j hij hjb
      exact h j (by omega) hjb
  | case3 i shift acc hi =>
    rw [varintGo, if_neg hi]
    constructor
    · intro _ j hij hjb
      omega
    · intro _
      rfl

/-- Frame property of the varint loop: the result depends only on the bytes of
the window `[off, off + bound)`. -/
theorem varintGo_frame {d₁ d₂ : List Nat} {off₁ off₂ bound : Nat}
    (hagree : ∀ j, j < bound → byteAt d₁ (off₁ + j) = byteAt d₂ (off₂ + j)) :
    ∀ {i shift acc},
      varintGo d₁ off₁ bound i shift acc = varintGo d₂ off₂ bound i shift acc := by
  intro i shift acc
  induction i, shift, acc using varintGo.induct d₁ off₁ bound with
  | case1 i shift acc hi hb =>
    have hb2 := hagree i hi
    have e1 : varintGo d₁ off₁ bound i shift acc =
        some (i + 1, acc ||| (((byteAt d₁ (off₁ + i) % 128) <<< shift) % 2 ^ 64)) := by
      rw [varintGo, if_pos hi, if_pos hb]
    have e2 : varintGo d₂ off₂ bound i shift acc =
        some (i + 1, acc ||| (((byteAt d₂ (off₂ + i) % 128) <<< shift) % 2 ^ 64)) := by
      rw [varintGo, if_pos hi, if_pos (hb2 ▸ hb)]
    rw [e1, e2, hb2]
  | case2 i shift acc hi hb ih =>
    have hb2 := hagree i hi
    have e1 : varintGo d₁ off₁ bound i shift acc =
        varintGo d₁ off₁ bound (i + 1) (shift + 7)
          (acc ||| (((byteAt d₁ (off₁ + i) % 128) <<< shift) % 2 ^ 64)) := by
      rw [varintGo]
      rw [if_pos hi, if_neg hb]
    have e2 : varintGo d₂ off₂ bound i shift acc =
        varintGo d₂ off₂ bound (i + 1) (shift + 7)
          (acc ||| (((byteAt d₂ (off₂ + i) % 128) <<< shift) % 2 ^ 64)) := by
      rw [varintGo]
      rw [if_pos hi, if_neg (hb2 ▸ hb)]
    rw [e1, e2, hb2]
    rw [hb2] at ih
    exact ih
  | case3 i shift acc hi =>
    have e1 : varintGo d₁ off₁ bound i shift acc = none := by
      rw [varintGo, if_neg hi]
    have e2 : varintGo d₂ off₂ bound i shift acc = none := by
      rw [varintGo, if_neg hi]
    rw [e1, e2]

/-- Decoding the loop over the bytes of `encodeVarint v` from index `i` with the
running accumulator: the varint round-trip at the loop level. -/
theorem varintGo_encode : ∀ (v : Nat) {data : List Nat} {off bound i shift acc : Nat},
    v <<< shift < 2 ^ 64 → acc < 2 ^ 64 →
    (∀ j, j < (encodeVarint v).length →
      byteAt data (off + i + j) = (encodeVarint v).getD j 0) →
    i + (encodeVarint v).length ≤ bound →
    varintGo data off bound i shift acc =
      some (i + (encodeVarint v).length, acc ||| (v <<< shift)) := by
  intro v
  induction v using Nat.strong_induction_on with
  | _ v ih =>
    intro data off bound i shift acc hv hacc hagree hbound
    by_cases h : v < 128
    · have hlen : (encodeVarint v).length = 1 := by
        rw [encodeVarint, if_pos h]
        rfl
      have hb : byteAt data (off + i) = v := by
        have := hagree 0 (by omega)
        rw [encodeVarint, if_pos h] at this
        simpa using this
      have hi : i < bound := by omega
      rw [varintGo, if_pos hi, hb, if_pos h, hlen]
      have hmod : v % 128 = v := Nat.mod_eq_of_lt h
      rw [hmod, Nat.mod_eq_of_lt hv]
    · have hcons : encodeVarint v = (v % 128 + 128) :: encodeVarint (v / 128) := by
        rw [encodeVarint, if_neg h]
      have hlen : (encodeVarint v).length = 1 + (encodeVarint (v / 128)).length := by
        rw [hcons]
        simp [Nat.add_comm]
      have hb : byteAt data (off + i) = v % 128 + 128 := by
        have := hagree 0 (by rw [hlen]; omega)
        rw [hcons] at this
        simpa using this
      have hi : i < bound := by omega
      have hchunk_lt : (v % 128) <<< shift < 2 ^ 64 := by
        apply lt_of_le_of_lt _ hv
        rw [Nat.shiftLeft_eq, Nat.shiftLeft_eq]
        exact Nat.mul_le_mul_right _ (Nat.mod_le v 128)
      have hcond : ¬ (byteAt data (off + i) < 128) := by
        rw [hb]
        omega
      have hstep : varintGo data off bound i shift acc =
          varintGo data off bound (i + 1) (shift + 7)
            (acc ||| ((v % 128) <<< shift)) := by
        rw [varintGo, if_pos hi, if_neg hcond, hb]
        have h128 : (v % 128 + 128) % 128 = v % 128 := by omega
        rw [h128, Nat.mod_eq_of_lt hchunk_lt]
      have hrec_lt : (v / 128) <<< (shift + 7) < 2 ^ 64 := by
        apply lt_of_le_of_lt _ hv
        rw [Nat.shiftLeft_eq, Nat.shiftLeft_eq, pow_add]
        calc v / 128 * (2 ^ shift * 2 ^ 7) = v / 128 * 2 ^ 7 * 2 ^ shift := by ring
        _ ≤ v * 2 ^ shift := by
            apply Nat.mul_le_mul_right
            have : v / 128 * 2 ^ 7 ≤ v / 128 * 128 := by norm_num
            calc v / 128 * 2 ^ 7 ≤ v / 128 * 128 := this
            _ ≤ v := by
                rw [Nat.mul_comm]
                exact Nat.mul_div_le v 128
      have hacc2 : acc ||| ((v % 128) <<< shift) < 2 ^ 64 :=
        Nat.or_lt_two_pow hacc hchunk_lt
      have hagree2 : ∀ j, j < (encodeVarint (v / 128)).length →
          byteAt data (off + (i + 1) + j) = (encodeVarint (v / 128)).getD j 0 := by
        intro j hj
        have := hagree (j + 1) (by omega)
        rw [hcons] at this
        simpa [Nat.add_assoc, Nat.add_comm, Nat.add_left_comm] using this
      have hIH := ih (v / 128) (Nat.div_lt_self (by omega) (by norm_num))
        hrec_lt hacc2 hagree2
        (show (i + 1) + (encodeVarint (v / 128)).length ≤ bound by omega)
      have hsnd : (acc ||| (v % 128) <<< shift) ||| (v / 128) <<< (shift + 7) =
          acc ||| v <<< shift := by
        rw [Nat.or_assoc]
        have hx : (v % 128) <<< shift < 2 ^ (shift + 7) := by
          rw [Nat.shiftLeft_eq, pow_add]
          have h7 : v % 128 < 2 ^ 7 := by omega
          calc v % 128 * 2 ^ shift < 2 ^ 7 * 2 ^ shift :=
            (Nat.mul_lt_mul_right (Nat.two_pow_pos shift)).mpr h7
          _ = 2 ^ shift * 2 ^ 7 := by ring
        have hinner : (v % 128) <<< shift ||| (v / 128) <<< (shift + 7) =
            v <<< shift := by
          rw [or_shiftLeft_eq_add (shift + 7) (v / 128) hx]
          rw [Nat.shiftLeft_eq, Nat.shiftLeft_eq, Nat.shiftLeft_eq, pow_add]
          have hdm : v % 128 + 128 * (v / 128) = v := Nat.mod_add_div v 128
          calc v % 128 * 2 ^ shift + v / 128 * (2 ^ shift * 2 ^ 7)
              = (v % 128 + 128 * (v / 128)) * 2 ^ shift := by ring
          _ = v * 2 ^ shift := by rw [hdm]
        rw [hinner]
      have hfst : (i + 1) + (encodeVarint (v / 128)).length =
          i + (1 + (encodeVarint (v / 128)).length) := by omega
      rw [hstep, hIH, hlen, hfst, hsnd]

/-- Varint round-trip: `decode_varint_safe` over a window that starts with the
encoding of a 64-bit value returns exactly that value and the encoded length. -/
theorem decode_varint_safe_encode {v : Nat} (hv : v < 2 ^ 64)
    {data : List Nat} {off max_bytes : Nat}
    (hagree : ∀ j, j < (encodeVarint v).length →
      byteAt data (off + j) = (encodeVarint v).getD j 0)
    (hmax : (encodeVarint v).length ≤ max_bytes) :
    decode_varint_safe data off max_bytes = some ((encodeVarint v).length, v) := by
  rw [decode_varint_safe]
  have h10 := encodeVarint_length_le_ten hv
  have := @varintGo_encode v data off (min max_bytes 10) 0 0 0
  rw [Nat.shiftLeft_zero] at this
  simpa using this hv (by norm_num) (by simpa using hagree) (by omega)

/-- `decode_varint_safe` on success consumed between 1 and `min max_bytes 10`
bytes. -/
theorem decode_varint_safe_some_le {data : List Nat} {off max_bytes n v : Nat}
    (h : decode_varint_safe data off max_bytes = some (n, v)) :
    1 ≤ n ∧ n ≤ min max_bytes 10 := by
  have := varintGo_some_bound h
  omega

/-- `decode_varint_safe` fails exactly when every byte of the (capped) window
has the continuation bit set: the budget or the 10-byte cap is exhausted before
a terminating byte. -/
theorem decode_varint_safe_none_iff {data : List Nat} {off max_bytes : Nat} :
    decode_varint_safe data off max_bytes = none ↔
      ∀ j, j < min max_bytes 10 → 128 ≤ byteAt data (off + j) := by
  rw [decode_varint_safe, varintGo_none_iff]
  constructor
  · intro h j hj
    exact h j (by omega) hj
  · intro h j _ hj
    exact h j hj

/-- Frame property: `decode_varint_safe` reads at most `min max_bytes 10` bytes
from the window - its result is determined by those bytes alone. -/
theorem decode_varint_safe_frame {d₁ d₂ : List Nat} {off₁ off₂ max_bytes : Nat}
    (hagree : ∀ j, j < min max_bytes 10 → byteAt d₁ (off₁ + j) = byteAt d₂ (off₂ + j)) :
    decode_varint_safe d₁ off₁ max_bytes = decode_varint_safe d₂ off₂ max_bytes :=
  varintGo_frame hagree

/-- Decoding a strict prefix of a varint encoding fails: every byte seen has
the continuation bit set. -/
theorem decode_varint_safe_prefix_none {v : Nat} {data : List Nat} {off max_bytes : Nat}
    (hagree : ∀ j, j < max_bytes → byteAt data (off + j) = (encodeVarint v).getD j 0)
    (hmax : max_bytes < (encodeVarint v).length) :
    decode_varint_safe data off max_bytes = none := by
  rw [decode_varint_safe_none_iff]
  intro j hj
  have hjm : j < max_bytes := lt_of_lt_of_le hj (min_le_left _ _)
  rw [hagree j hjm]
  exact encodeVarint_prefix_byte v j (by omega)

/-! ## Record decoder (src/main.c:1024-1114; the same decode sequence appears
in `cmd_sstable_stats`, `cmd_sstable_keys` and `cmd_sstable_dump_full`) -/

/-- `TDB_KV_FLAG_TOMBSTONE` (src/main.c:53). -/
def TDB_KV_FLAG_TOMBSTONE : Nat := 1
/-- `TDB_KV_FLAG_HAS_TTL` (src/main.c:54). -/
def TDB_KV_FLAG_HAS_TTL : Nat := 2
/-- `TDB_KV_FLAG_HAS_VLOG` (src/main.c:55). -/
def TDB_KV_FLAG_HAS_VLOG : Nat := 4
/-- `TDB_KV_FLAG_DELTA_SEQ` (src/main.c:56). -/
def TDB_KV_FLAG_DELTA_SEQ : Nat := 8

/-- `ADMINTOOL_DEFAULT_DUMP_LIMIT` (src/main.c:58). -/
def ADMINTOOL_DEFAULT_DUMP_LIMIT : Nat := 1000
/-- `ADMINTOOL_LARGE_FILE_THRESHOLD` (src/main.c:59). -/
def ADMINTOOL_LARGE_FILE_THRESHOLD : Nat := 100 * 1024 * 1024

/-- The contiguous byte run `[off, off + n)` of modelled memory (a `memcpy`
of `n` bytes from pointer `data + off`). -/
def sliceAt (data : List Nat) (off n : Nat) : List Nat := (data.drop off).take n

/-- One record decoded by the table walkers. `value = none` models the C
`value` pointer staying `NULL` (external storage or empty value). `ttl` is
the raw little-endian 64-bit pattern of the `int64_t`. -/
structure DecodedRecord where
  flags : Nat
  keySize : Nat
  valueSize : Nat
  seq : Nat
  ttl : Nat
  vlogOffset : Nat
  key : List Nat
  value : Option (List Nat)
deriving Repr, DecidableEq

/-- Key/value byte-run steps of the record decode (src/main.c:1075-1088):
the key must fit in the window; an inline value is consumed only when
`HAS_VLOG` is clear and `value_size > 0`. -/
def decodeKeyValue (data : List Nat) (off rem flags keySize valueSize seq ttl
    vlogOffset : Nat) : Option (DecodedRecord × Nat × Nat) :=
  if rem < keySize then none
  else
    if flags &&& TDB_KV_FLAG_HAS_VLOG = 0 ∧ 0 < valueSize then
      if rem - keySize < valueSize then none
      else
        some ({ flags := flags, keySize := keySize, valueSize := valueSize,
                seq := seq, ttl := ttl, vlogOffset := vlogOffset,
                key := sliceAt data off keySize,
                value := some (sliceAt data (off + keySize) valueSize) },
              off + keySize + valueSize, rem - keySize - valueSize)
    else
      some ({ flags := flags, keySize := keySize, valueSize := valueSize,
              seq := seq, ttl := ttl, vlogOffset := vlogOffset,
              key := sliceAt data off keySize, value := none },
            off + keySize, rem - keySize)

/-- Optional value-log-offset varint step (src/main.c:1066-1073). -/
def decodeAfterTTL (data : List Nat) (off rem flags keySize valueSize seq
    ttl : Nat) : Option (DecodedRecord × Nat × Nat) :=
  if flags &&& TDB_KV_FLAG_HAS_VLOG ≠ 0 then
    match decode_varint_safe data off rem with
    | none => none
    | some (nv, vlogOffset) =>
      if rem < nv then none
      else decodeKeyValue data (off + nv) (rem - nv) flags keySize valueSize
        seq ttl vlogOffset
  else decodeKeyValue data off rem flags keySize valueSize seq ttl 0

/-- Optional fixed 8-byte TTL step (src/main.c:1057-1064): in the table
walkers fewer than 8 remaining bytes is a decode failure. -/
def decodeAfterSeq (data : List Nat) (off rem flags keySize valueSize
    seq : Nat) : Option (DecodedRecord × Nat × Nat) :=
  if flags &&& TDB_KV_FLAG_HAS_TTL ≠ 0 then
    if rem < 8 then none
    else decodeAfterTTL data (off + 8) (rem - 8) flags keySize valueSize seq
      (leDecode data off 8)
  else decodeAfterTTL data off rem flags keySize valueSize seq 0

/-- Decode one table record from the window `[off, off + rem)`
(src/main.c:1024-1088): flags byte, then key-size / value-size / sequence
varints (budget re-checked at every step), delta-sequence reconstruction
against `prevSeq` (64-bit wrap-around addition), optional TTL, optional
value-log offset, key bytes, inline value bytes. Returns the record and the
advanced `(off, rem)` cursor; `none` is the C `break`. -/
def decodeRecordAt (data : List Nat) (off rem prevSeq : Nat) :
    Option (DecodedRecord × Nat × Nat) :=
  if rem < 1 then none
  else
    match decode_varint_safe data (off + 1) (rem - 1) with
    | none => none
    | some (n1, keySize) =>
      if rem - 1 < n1 then none
      else
        match decode_varint_safe data (off + 1 + n1) (rem - 1 - n1) with
        | none => none
        | some (n2, valueSize) =>
          if rem - 1 - n1 < n2 then none
          else
            match decode_varint_safe data (off + 1 + n1 + n2)
                (rem - 1 - n1 - n2) with
            | none => none
            | some (n3, seqValue) =>
              if rem - 1 - n1 - n2 < n3 then none
              else
                decodeAfterSeq data (off + 1 + n1 + n2 + n3)
                  (rem - 1 - n1 - n2 - n3) (byteAt data off) keySize valueSize
                  (if byteAt data off &&& TDB_KV_FLAG_DELTA_SEQ ≠ 0 then
                    (prevSeq + seqValue) % 2 ^ 64
                  else seqValue)

theorem decodeKeyValue_rem_le {data : List Nat}
    {off rem flags ks vs seq ttl vo : Nat} {r : DecodedRecord} {o2 r2 : Nat}
    (h : decodeKeyValue data off rem flags ks vs seq ttl vo = some (r, o2, r2)) :
    r2 ≤ rem := by
  rw [decodeKeyValue] at h
  split at h
  · simp at h
  · split at h
    · split at h
      · simp at h
      · simp only [Option.some.injEq, Prod.mk.injEq] at h
        omega
    · simp only [Option.some.injEq, Prod.mk.injEq] at h
      omega

theorem decodeAfterTTL_rem_le {data : List Nat}
    {off rem flags ks vs seq ttl : Nat} {r : DecodedRecord} {o2 r2 : Nat}
    (h : decodeAfterTTL data off rem flags ks vs seq ttl = some (r, o2, r2)) :
    r2 ≤ rem := by
  rw [decodeAfterTTL] at h
  split at h
  · split at h
    · simp at h
    · split at h
      · simp at h
      · have := decodeKeyValue_rem_le h
        omega
  · exact decodeKeyValue_rem_le h

theorem decodeAfterSeq_rem_le {data : List Nat}
    {off rem flags ks vs seq : Nat} {r : DecodedRecord} {o2 r2 : Nat}
    (h : decodeAfterSeq data off rem flags ks vs seq = some (r, o2, r2)) :
    r2 ≤ rem := by
  rw [decodeAfterSeq] at h
  split at h
  · split at h
    · simp at h
    · have := decodeAfterTTL_rem_le h
      omega
  · exact decodeAfterTTL_rem_le h

/-- A successful record decode strictly shrinks the remaining-byte budget
(at least the flags byte is consumed). -/
theorem decodeRecordAt_shrinks {data : List Nat} {off rem prevSeq : Nat}
    {r : DecodedRecord} {off2 rem2 : Nat}
    (h : decodeRecordAt data off rem prevSeq = some (r, off2, rem2)) :
    rem2 < rem := by
  rw [decodeRecordAt] at h
  split at h
  · simp at h
  · rename_i hrem
    split at h
    · simp at h
    · split at h
      · simp at h
      · split at h
        · simp at h
        · split at h
          · simp at h
          · split at h
            · simp at h
            · split at h
              · simp at h
              · have := decodeAfterSeq_rem_le h
                omega

/-! ## Table walker (src/main.c:1005-1120) -/

/-- Inner record loop of the table walkers (src/main.c:1024-1114): decode
records until the window is exhausted, the running `total_entries` count
reaches the limit, or a record fails to decode (the C `break`); `prevSeq`
is threaded between records of one block. Returns the records decoded from
this block and the updated count. -/
def decodeBlockGo (data : List Nat) (off rem prevSeq limit count : Nat) :
    List DecodedRecord × Nat :=
  if 0 < rem ∧ count < limit then
    match h : decodeRecordAt data off rem prevSeq with
    | none => ([], count)
    | some (r, off2, rem2) =>
      match decodeBlockGo data off2 rem2 r.seq limit (count + 1) with
      | (rest, c2) => (r :: rest, c2)
  else ([], count)
termination_by rem
decreasing_by exact decodeRecordAt_shrinks h

/-- The same loop without an output limit: all well-formed records at the
head of the window. -/
def decodeBlockRecords (data : List Nat) (off rem prevSeq : Nat) :
    List DecodedRecord :=
  if 0 < rem then
    match h : decodeRecordAt data off rem prevSeq with
    | none => []
    | some (r, off2, rem2) => r :: decodeBlockRecords data off2 rem2 r.seq
  else []
termination_by rem
decreasing_by exact decodeRecordAt_shrinks h

/-- Outer block loop of `cmd_sstable_dump` (src/main.c:1005-1120): while the
entry count is under the limit, read the cursor's blocks in order, skip
blocks smaller than 4 bytes, decode each block with the per-block `prev_seq`
reset to 0, and annotate every emitted record with its block index. -/
def sstableDumpGo : List (List Nat) → Nat → Nat → Nat → List (Nat × DecodedRecord)
  | [], _, _, _ => []
  | b :: bs, limit, count, blkIdx =>
    if count < limit then
      if b.length < 4 then sstableDumpGo bs limit count (blkIdx + 1)
      else
        match decodeBlockGo b 0 b.length 0 limit count with
        | (recs, c2) =>
          recs.map (fun r => (blkIdx, r)) ++ sstableDumpGo bs limit c2 (blkIdx + 1)
    else []

/-- The records printed by `cmd_sstable_dump` (src/main.c:959-1128), given
the blocks yielded by the block-manager cursor and the effective limit. -/
def sstableDumpEntries (blocks : List (List Nat)) (limit : Nat) :
    List (Nat × DecodedRecord) :=
  sstableDumpGo blocks limit 0 0

/-- Limit-argument handling shared by `cmd_sstable_dump` (src/main.c:965-972),
`cmd_sstable_keys`, `cmd_wal_dump` and `cmd_sstable_dump_full`: the default
is `ADMINTOOL_DEFAULT_DUMP_LIMIT`, a supplied argument replaces it only when
it parsed as a positive number.  `arg` is the `strtol`-parsed optional
argument. -/
def effectiveLimit (arg : Option Int) : Nat :=
  match arg with
  | none => ADMINTOOL_DEFAULT_DUMP_LIMIT
  | some p => if 0 < p then p.toNat else ADMINTOOL_DEFAULT_DUMP_LIMIT

/-- The large-file check (src/main.c:974-979): a file above the threshold
only produces a warning; the pair returned models (limit used, warning
printed). -/
def dumpLimitSetup (fileSize : Nat) (arg : Option Int) : Nat × Bool :=
  (effectiveLimit arg, decide (ADMINTOOL_LARGE_FILE_THRESHOLD < fileSize))

/-! ## WAL dump (src/main.c:1995-2153) -/

/-- One entry printed by `cmd_wal_dump`. -/
structure WalEntry where
  flags : Nat
  keySize : Nat
  valueSize : Nat
  seq : Nat
  ttl : Nat
  key : List Nat
  value : Option (List Nat)
deriving Repr, DecidableEq

/-- Key/value tail of the WAL-dump decode (src/main.c:2106-2119): the key
must fit; the value is only displayed (never consumed) when it fits in what
remains. -/
def walDumpKey (b : List Nat) (off rem flags keySize valueSize seq ttl : Nat) :
    Option WalEntry :=
  if rem < keySize then none
  else
    some { flags := flags, keySize := keySize, valueSize := valueSize,
           seq := seq, ttl := ttl, key := sliceAt b off keySize,
           value :=
             if 0 < valueSize ∧ valueSize ≤ rem - keySize then
               some (sliceAt b (off + keySize) valueSize)
             else none }

/-- Decode of one WAL block by `cmd_wal_dump` (src/main.c:2045-2141): flags
byte, three varints; unlike every other decode path the TTL step is skipped
- not failed - when fewer than 8 bytes remain (src/main.c:2097-2104), there
is no value-log varint, and no delta-sequence handling. `none` means the
block is skipped without emitting an entry (the C `continue`). -/
def walDumpEntry (b : List Nat) : Option WalEntry :=
  if b.length < 1 then none
  else
    match decode_varint_safe b 1 (b.length - 1) with
    | none => none
    | some (n1, keySize) =>
      if b.length - 1 < n1 then none
      else
        match decode_varint_safe b (1 + n1) (b.length - 1 - n1) with
        | none => none
        | some (n2, valueSize) =>
          if b.length - 1 - n1 < n2 then none
          else
            match decode_varint_safe b (1 + n1 + n2) (b.length - 1 - n1 - n2) with
            | none => none
            | some (n3, seq) =>
              if b.length - 1 - n1 - n2 < n3 then none
              else
                if byteAt b 0 &&& TDB_KV_FLAG_HAS_TTL ≠ 0 ∧
                    8 ≤ b.length - 1 - n1 - n2 - n3 then
                  walDumpKey b (1 + n1 + n2 + n3 + 8)
                    (b.length - 1 - n1 - n2 - n3 - 8) (byteAt b 0) keySize
                    valueSize seq (leDecode b (1 + n1 + n2 + n3) 8)
                else
                  walDumpKey b (1 + n1 + n2 + n3) (b.length - 1 - n1 - n2 - n3)
                    (byteAt b 0) keySize valueSize seq 0

/-- Outer loop of `cmd_wal_dump` (src/main.c:2040-2146): one entry per block,
blocks that fail to decode are skipped, the loop stops at the limit. -/
def walDumpGo : List (List Nat) → Nat → Nat → List WalEntry
  | [], _, _ => []
  | b :: bs, limit, count =>
    if count < limit then
      match walDumpEntry b with
      | none => walDumpGo bs limit count
      | some e => e :: walDumpGo bs limit (count + 1)
    else []

/-- The entries printed by `cmd_wal_dump` given the cursor's blocks. -/
def walDumpEntries (blocks : List (List Nat)) (limit : Nat) : List WalEntry :=
  walDumpGo blocks limit 0

/-! ## WAL integrity scanner (src/main.c:2155-2304) -/

/-- Validity classification of one WAL block by `cmd_wal_verify`
(src/main.c:2208-2271): flags, three varints, strict 8-byte TTL check, key
must fit, a nonzero-sized value must fit. Returns the decoded sequence
number when the entry is structurally valid. -/
def walEntryValid (b : List Nat) : Option Nat :=
  if b.length < 1 then none
  else
    match decode_varint_safe b 1 (b.length - 1) with
    | none => none
    | some (n1, keySize) =>
      if b.length - 1 < n1 then none
      else
        match decode_varint_safe b (1 + n1) (b.length - 1 - n1) with
        | none => none
        | some (n2, valueSize) =>
          if b.length - 1 - n1 < n2 then none
          else
            match decode_varint_safe b (1 + n1 + n2) (b.length - 1 - n1 - n2) with
            | none => none
            | some (n3, seq) =>
              if b.length - 1 - n1 - n2 < n3 then none
              else
                if byteAt b 0 &&& TDB_KV_FLAG_HAS_TTL ≠ 0 then
                  if b.length - 1 - n1 - n2 - n3 < 8 then none
                  else
                    if b.length - 1 - n1 - n2 - n3 - 8 < keySize then none
                    else
                      if 0 < valueSize ∧
                          b.length - 1 - n1 - n2 - n3 - 8 - keySize < valueSize then
                        none
                      else some seq
                else
                  if b.length - 1 - n1 - n2 - n3 < keySize then none
                  else
                    if 0 < valueSize ∧
                        b.length - 1 - n1 - n2 - n3 - keySize < valueSize then
                      none
                    else some seq

/-- Terminal counters of `cmd_wal_verify` (src/main.c:2187-2191). -/
structure WalVerifyResult where
  valid : Nat
  corrupted : Nat
  minSeq : Nat
  maxSeq : Nat
  lastValidPos : Nat
deriving Repr, DecidableEq

/-- Main loop of `cmd_wal_verify` (src/main.c:2193-2283): each block the
cursor yields is classified; empty blocks are skipped; a valid entry bumps
the valid count, folds its sequence into the min/max and records the block's
start position as `last_valid_pos` - whether or not a corrupt entry was seen
earlier. The blocks are given with the positions the code reads from
`cursor->current_pos`. -/
def walVerifyGo : List (Nat × List Nat) → WalVerifyResult → WalVerifyResult
  | [], acc => acc
  | (pos, b) :: bs, acc =>
    if b.length < 1 then walVerifyGo bs acc
    else
      match walEntryValid b with
      | some seq =>
        walVerifyGo bs
          { valid := acc.valid + 1, corrupted := acc.corrupted,
            minSeq := if seq < acc.minSeq then seq else acc.minSeq,
            maxSeq := if acc.maxSeq < seq then seq else acc.maxSeq,
            lastValidPos := pos }
      | none => walVerifyGo bs { acc with corrupted := acc.corrupted + 1 }

/-- `cmd_wal_verify`'s terminal report (src/main.c:2155-2304): counters start
at `valid = corrupted = 0`, `min_seq = UINT64_MAX`, `max_seq = 0`,
`last_valid_pos = 0`. -/
def cmd_wal_verify (blocks : List (Nat × List Nat)) : WalVerifyResult :=
  walVerifyGo blocks
    { valid := 0, corrupted := 0, minSeq := 2 ^ 64 - 1, maxSeq := 0,
      lastValidPos := 0 }

/-- The terminal status line and return value of `cmd_wal_verify`
(src/main.c:2293-2303): `OK` and success exactly when no entry was
corrupted. -/
def cmd_wal_verify_ok (blocks : List (Nat × List Nat)) : Bool :=
  (cmd_wal_verify blocks).corrupted = 0

/-! ## Positional block scanner, checksum verification (src/main.c:1575-1662) -/

/-- `decode_uint32_le` (external tidesdb compat header; the spec fixes the
field as 4-byte little-endian). -/
def decode_uint32_le (data : List Nat) (off : Nat) : Nat := leDecode data off 4

/-- Classification of one scanned block by `cmd_sstable_checksum`. -/
inductive BlockStatus where
  | valid
  | invalidSize
  | readError
  | checksumMismatch
deriving Repr, DecidableEq

/-- Positional scan loop of `cmd_sstable_checksum` (src/main.c:1603-1652):
at each position read an 8-byte header (4-byte LE payload length, 4-byte LE
stored checksum); a short header read ends the scan silently; a zero or
over-100-MiB length is recorded and ends the scan; a short payload read is
recorded and ends the scan; otherwise the recomputed digest is compared with
the stored one and the scan advances by `8 + payload_length + 8` bytes -
also past a mismatching block. Records `(position, declared length, status)`
per block. -/
def checksumScanGo (checksum : List Nat → Nat) (file : List Nat) (pos : Nat) :
    List (Nat × Nat × BlockStatus) :=
  if h : pos < file.length then
    if file.length < pos + 8 then []
    else
      if decode_uint32_le file pos = 0 ∨
          100 * 1024 * 1024 < decode_uint32_le file pos then
        [(pos, decode_uint32_le file pos, BlockStatus.invalidSize)]
      else
        if file.length < pos + 8 + decode_uint32_le file pos then
          [(pos, decode_uint32_le file pos, BlockStatus.readError)]
        else
          if checksum (sliceAt file (pos + 8) (decode_uint32_le file pos)) =
              decode_uint32_le file (pos + 4) then
            (pos, decode_uint32_le file pos, BlockStatus.valid) ::
              checksumScanGo checksum file (pos + 8 + decode_uint32_le file pos + 8)
          else
            (pos, decode_uint32_le file pos, BlockStatus.checksumMismatch) ::
              checksumScanGo checksum file (pos + 8 + decode_uint32_le file pos + 8)
  else []
termination_by file.length - pos
decreasing_by all_goals omega

/-- Terminal report of `cmd_sstable_checksum` (src/main.c:1654-1661). -/
structure ChecksumResult where
  blocks : List (Nat × Nat × BlockStatus)
  validBlocks : Nat
  invalidBlocks : Nat
  statusOk : Bool
  ret : Int
deriving Repr, DecidableEq

/-- `cmd_sstable_checksum` (src/main.c:1575-1662): the scan starts at byte 8
(skipping the file-level header); `Status: OK` and return 0 exactly when no
block was invalid. -/
def cmd_sstable_checksum (checksum : List Nat → Nat) (file : List Nat) :
    ChecksumResult :=
  { blocks := checksumScanGo checksum file 8,
    validBlocks :=
      ((checksumScanGo checksum file 8).filter
        (fun e => e.2.2 = BlockStatus.valid)).length,
    invalidBlocks :=
      ((checksumScanGo checksum file 8).filter
        (fun e => ¬ e.2.2 = BlockStatus.valid)).length,
    statusOk :=
      ((checksumScanGo checksum file 8).filter
        (fun e => ¬ e.2.2 = BlockStatus.valid)).length = 0,
    ret :=
      if 0 < ((checksumScanGo checksum file 8).filter
          (fun e => ¬ e.2.2 = BlockStatus.valid)).length then -1
      else 0 }

/-! ## Value-log resolver (src/main.c:1664-1708) -/

/-- The three outcomes of `read_vlog_value`: `structuralFailure` is the C
`-1`, `checksumFailure` the C `-2`, `success` carries the payload returned
through `*value_out` (and the C return value is its length). -/
inductive VlogResult where
  | structuralFailure
  | checksumFailure
  | success (payload : List Nat)
deriving Repr, DecidableEq

/-- `read_vlog_value` (src/main.c:1664-1708): open the companion file
(`none` models a failed `open`), read the 8-byte block header at
`vlog_offset`, reject a zero or over-100-MiB declared length, read that many
payload bytes, recompute the digest and compare with the stored one. The
`value_size` parameter is the caller's expected size. -/
def read_vlog_value (checksum : List Nat → Nat) (vfile : Option (List Nat))
    (vlog_offset value_size : Nat) : VlogResult :=
  match vfile with
  | none => VlogResult.structuralFailure
  | some f =>
    if f.length < vlog_offset + 8 then VlogResult.structuralFailure
    else
      if decode_uint32_le f vlog_offset = 0 ∨
          100 * 1024 * 1024 < decode_uint32_le f vlog_offset then
        VlogResult.structuralFailure
      else
        if f.length < vlog_offset + 8 + decode_uint32_le f vlog_offset then
          VlogResult.structuralFailure
        else
          if checksum (sliceAt f (vlog_offset + 8) (decode_uint32_le f vlog_offset)) ≠
              decode_uint32_le f (vlog_offset + 4) then
            VlogResult.checksumFailure
          else
            VlogResult.success
              (sliceAt f (vlog_offset + 8) (decode_uint32_le f vlog_offset))

/-! ## Full dump (src/main.c:1710-1915) -/

/-- How `cmd_sstable_dump_full` renders a record's value-log reference
(src/main.c:1877-1886): `retrieved` when the payload came back, otherwise
the distinct `CHECKSUM_ERR` / `READ_ERR` / `NO_VLOG_FILE` annotations;
`none` when the record has no value-log reference, or when it has one with
`value_size = 0` and a companion file present (`vlog_status` stays 0 and no
extra annotation is printed). -/
inductive VlogAnnotation where
  | noAnnotation
  | retrieved (payload : List Nat)
  | checksumErr
  | readErr
  | noVlogFile
deriving Repr, DecidableEq

/-- The annotation `cmd_sstable_dump_full` prints for one decoded record
(src/main.c:1852-1886): `read_vlog_value` is consulted only when the record
references the value log, a companion file was given and the value size is
nonzero. -/
def fullDumpAnnotate (checksum : List Nat → Nat) (vfile : Option (List Nat))
    (r : DecodedRecord) : VlogAnnotation :=
  if r.flags &&& TDB_KV_FLAG_HAS_VLOG ≠ 0 then
    match vfile with
    | none => VlogAnnotation.noVlogFile
    | some f =>
      if 0 < r.valueSize then
        match read_vlog_value checksum (some f) r.vlogOffset r.valueSize with
        | VlogResult.success p => VlogAnnotation.retrieved p
        | VlogResult.checksumFailure => VlogAnnotation.checksumErr
        | VlogResult.structuralFailure => VlogAnnotation.readErr
      else VlogAnnotation.noAnnotation
  else VlogAnnotation.noAnnotation

/-- One line of `cmd_sstable_dump_full` output: the record, its block index,
whether its block's checksum matched, and the value-log annotation. -/
structure FullDumpEntry where
  blkIdx : Nat
  checksumOk : Bool
  record : DecodedRecord
  vlog : VlogAnnotation
deriving Repr, DecidableEq

/-- Main loop of `cmd_sstable_dump_full` (src/main.c:1760-1906): the same
positional scan as `cmd_sstable_checksum` (stopping conditions identical, a
checksum mismatch never stops it), decoding each read block with the table
record decoder (`prev_seq` reset per block, `total_entries` threaded through
the limit), flagging every record of a mismatching block with
`CHECKSUM_ERR`, and counting mismatching blocks. Returns (entries, final
count, checksum error count). -/
def fullDumpGo (checksum : List Nat → Nat) (vfile : Option (List Nat))
    (file : List Nat) (pos limit count blkIdx : Nat) :
    List FullDumpEntry × Nat × Nat :=
  if h : count < limit ∧ pos < file.length then
    if file.length < pos + 8 then ([], count, 0)
    else
      if decode_uint32_le file pos = 0 ∨
          100 * 1024 * 1024 < decode_uint32_le file pos then ([], count, 0)
      else
        if file.length < pos + 8 + decode_uint32_le file pos then ([], count, 0)
        else
          match decodeBlockGo (sliceAt file (pos + 8) (decode_uint32_le file pos))
              0 (decode_uint32_le file pos) 0 limit count with
          | (recs, c2) =>
            match fullDumpGo checksum vfile file
                (pos + 8 + decode_uint32_le file pos + 8) limit c2 (blkIdx + 1) with
            | (rest, cfin, errs) =>
              (recs.map (fun r =>
                { blkIdx := blkIdx,
                  checksumOk :=
                    checksum (sliceAt file (pos + 8) (decode_uint32_le file pos)) =
                      decode_uint32_le file (pos + 4),
                  record := r, vlog := fullDumpAnnotate checksum vfile r }) ++ rest,
               cfin,
               (if checksum (sliceAt file (pos + 8) (decode_uint32_le file pos)) =
                   decode_uint32_le file (pos + 4) then 0 else 1) + errs)
  else ([], count, 0)
termination_by file.length - pos
decreasing_by all_goals omega

/-- `cmd_sstable_dump_full` (src/main.c:1710-1915): scan starts at byte 8;
returns the printed entries and the checksum-error count of the summary
line. -/
def cmd_sstable_dump_full (checksum : List Nat → Nat) (vfile : Option (List Nat))
    (file : List Nat) (limit : Nat) : List FullDumpEntry × Nat × Nat :=
  fullDumpGo checksum vfile file 8 limit 0 0

/-! ## Bloom filter inspector (src/main.c:1473-1573) -/

/-- The deserialized filter snapshot (layout from the external
`bloom_filter_t`: `m` bits, `h` hash rounds, `size_in_words` 64-bit words
of bit array). -/
structure BloomFilter where
  m : Nat
  h : Nat
  size_in_words : Nat
  bitset : List Nat
deriving Repr, DecidableEq

/-- Population count of one word - the C inner loop
`while (word) { bits_set += word & 1; word >>= 1; }` (src/main.c:1544-1547). -/
def popcountNat (w : Nat) : Nat :=
  if w = 0 then 0 else w % 2 + popcountNat (w / 2)
termination_by w
decreasing_by exact Nat.div_lt_self (by omega) (by norm_num)

/-- `bits_set` (src/main.c:1541-1548): sum of the population counts of the
first `size_in_words` 64-bit words. -/
def bloom_bits_set (bf : BloomFilter) : Nat :=
  (List.range bf.size_in_words).foldl
    (fun acc i => acc + popcountNat (bf.bitset.getD i 0 % 2 ^ 64)) 0

/-- `fill_ratio = bits_set / m` (src/main.c:1550). The C computation is in
`double`; the model is exact rational arithmetic (for the spec's concrete
instances - 500/1000 and its fourth power - the double computation is
exact). -/
def bloom_fill_ratio (bf : BloomFilter) : ℚ :=
  (bloom_bits_set bf : ℚ) / (bf.m : ℚ)

/-- `estimated_fpr = fill_ratio ^ h` (src/main.c:1551). -/
def bloom_estimated_fpr (bf : BloomFilter) : ℚ :=
  bloom_fill_ratio bf ^ bf.h

/-- The high-fill-ratio warning condition `fill_ratio > 0.5`
(src/main.c:1564-1566): strictly greater. -/
def bloom_high_fill_warning (bf : BloomFilter) : Bool :=
  decide ((1 : ℚ) / 2 < bloom_fill_ratio bf)

/-! ## Window-layout helpers -/

theorem getD_append_left {l1 l2 : List Nat} {i : Nat} (h : i < l1.length) :
    (l1 ++ l2).getD i 0 = l1.getD i 0 := by
  rw [List.getD_eq_getElem?_getD, List.getD_eq_getElem?_getD,
    List.getElem?_append, if_pos h]

theorem getD_append_right' {l1 l2 : List Nat} {i : Nat} (h : l1.length ≤ i) :
    (l1 ++ l2).getD i 0 = l2.getD (i - l1.length) 0 := by
  rw [List.getD_eq_getElem?_getD, List.getD_eq_getElem?_getD,
    List.getElem?_append, if_neg (by omega)]

theorem getD_take_lt {l : List Nat} {k i : Nat} (h : i < k) :
    (l.take k).getD i 0 = l.getD i 0 := by
  rw [List.getD_eq_getElem?_getD, List.getD_eq_getElem?_getD,
    List.getElem?_take, if_pos h]

/-- Reading a byte out of the middle segment of an appended layout. -/
theorem byteAt_append_middle {pre mid post : List Nat} {j : Nat}
    (hj : j < mid.length) :
    byteAt (pre ++ (mid ++ post)) (pre.length + j) = mid.getD j 0 % 256 := by
  rw [byteAt, getD_append_right' (by omega), Nat.add_sub_cancel_left,
    getD_append_left hj]

/-- `decode_varint_safe` at the start of an encoded varint inside an appended
layout: the round trip, positioned. -/
theorem decode_varint_at {pre post : List Nat} {v max_bytes : Nat}
    (hv : v < 2 ^ 64) (hmax : (encodeVarint v).length ≤ max_bytes) :
    decode_varint_safe (pre ++ (encodeVarint v ++ post)) pre.length max_bytes =
      some ((encodeVarint v).length, v) := by
  apply decode_varint_safe_encode hv _ hmax
  intro j hj
  rw [byteAt_append_middle hj, Nat.mod_eq_of_lt (encodeVarint_byte_lt v j)]

/-- `decode_varint_safe` over a window that ends strictly inside an encoded
varint fails. -/
theorem decode_varint_at_truncated {pre : List Nat} {v max_bytes : Nat}
    (hmax : max_bytes < (encodeVarint v).length) (post : List Nat) :
    decode_varint_safe ((pre ++ (encodeVarint v ++ post)).take
        (pre.length + max_bytes)) pre.length max_bytes = none ∧
    decode_varint_safe (pre ++ ((encodeVarint v).take max_bytes))
        pre.length max_bytes = none := by
  constructor
  · apply decode_varint_safe_prefix_none (v := v) _ hmax
    intro j hj
    rw [byteAt, getD_take_lt (by omega), ← byteAt]
    rw [byteAt_append_middle (by omega),
      Nat.mod_eq_of_lt (encodeVarint_byte_lt v j)]
  · apply decode_varint_safe_prefix_none (v := v) _ hmax
    intro j hj
    rw [byteAt, getD_append_right' (by omega), Nat.add_sub_cancel_left,
      getD_take_lt hj, Nat.mod_eq_of_lt (encodeVarint_byte_lt v j)]

/-! ## Synthetic record encoder (modelled from the spec, §8: a test-only
encoder for round-trip, delta-sequence and truncation properties; the tool
itself only decodes) -/

/-- A record to encode: the four flag bits, the encoded (pre-delta) sequence
integer, the raw 8 TTL bytes, the value-log offset, and the key/value
bytes. -/
structure RecordSpec where
  tombstone : Bool
  hasTTL : Bool
  hasVlog : Bool
  deltaSeq : Bool
  seqEnc : Nat
  ttlBytes : List Nat
  vlogOff : Nat
  key : List Nat
  value : List Nat
deriving Repr, DecidableEq

/-- The flags byte of an encoded record (spec §6 flag bit assignments). -/
def RecordSpec.flagsByte (r : RecordSpec) : Nat :=
  (if r.tombstone then 1 else 0) + (if r.hasTTL then 2 else 0) +
    (if r.hasVlog then 4 else 0) + (if r.deltaSeq then 8 else 0)

/-- The TTL field: 8 bytes, present iff `hasTTL`. -/
def RecordSpec.ttlField (r : RecordSpec) : List Nat :=
  if r.hasTTL then r.ttlBytes else []

/-- The value-log-offset field: a varint, present iff `hasVlog`. -/
def RecordSpec.vlogField (r : RecordSpec) : List Nat :=
  if r.hasVlog then encodeVarint r.vlogOff else []

/-- The inline value field: present iff the value is not externally stored
and nonempty (spec §4.2 / src/main.c:1082-1088). -/
def RecordSpec.valueField (r : RecordSpec) : List Nat :=
  if ¬ r.hasVlog ∧ 0 < r.value.length then r.value else []

/-- Spec §6 record payload layout:
`[flags][varint key_length][varint value_length][varint sequence]`
`[8-byte TTL?][varint value_log_offset?][key][inline value?]`. -/
def encodeRecord (r : RecordSpec) : List Nat :=
  [r.flagsByte] ++ (encodeVarint r.key.length ++ (encodeVarint r.value.length ++
    (encodeVarint r.seqEnc ++ (r.ttlField ++ (r.vlogField ++
      (r.key ++ r.valueField))))))

/-- Well-formedness: the sizes fit in 64 bits and the TTL field, when
present, is exactly 8 bytes. -/
def RecordSpec.WF (r : RecordSpec) : Prop :=
  r.key.length < 2 ^ 64 ∧ r.value.length < 2 ^ 64 ∧ r.seqEnc < 2 ^ 64 ∧
    (r.hasTTL = true → r.ttlBytes.length = 8) ∧
    (r.hasVlog = true → r.vlogOff < 2 ^ 64)

instance (r : RecordSpec) : Decidable r.WF := by
  unfold RecordSpec.WF
  infer_instance

/-- The record the table decoder reconstructs from `encodeRecord r` given
the previous decoded sequence. -/
def decodedOf (r : RecordSpec) (prevSeq : Nat) : DecodedRecord :=
  { flags := r.flagsByte, keySize := r.key.length,
    valueSize := r.value.length,
    seq := if r.deltaSeq then (prevSeq + r.seqEnc) % 2 ^ 64 else r.seqEnc,
    ttl := if r.hasTTL then leDecode r.ttlBytes 0 8 else 0,
    vlogOffset := if r.hasVlog then r.vlogOff else 0,
    key := r.key,
    value := if ¬ r.hasVlog ∧ 0 < r.value.length then some r.value else none }

theorem flagsByte_lt (r : RecordSpec) : r.flagsByte < 256 := by
  rw [RecordSpec.flagsByte]
  split <;> split <;> split <;> split <;> norm_num

theorem flagsByte_ttl (r : RecordSpec) :
    (r.flagsByte &&& TDB_KV_FLAG_HAS_TTL ≠ 0) ↔ r.hasTTL = true := by
  rw [RecordSpec.flagsByte, TDB_KV_FLAG_HAS_TTL]
  cases r.tombstone <;> cases r.hasTTL <;> cases r.hasVlog <;>
    cases r.deltaSeq <;> simp <;> decide

theorem flagsByte_vlog (r : RecordSpec) :
    (r.flagsByte &&& TDB_KV_FLAG_HAS_VLOG ≠ 0) ↔ r.hasVlog = true := by
  rw [RecordSpec.flagsByte, TDB_KV_FLAG_HAS_VLOG]
  cases r.tombstone <;> cases r.hasTTL <;> cases r.hasVlog <;>
    cases r.deltaSeq <;> simp <;> decide

theorem flagsByte_delta (r : RecordSpec) :
    (r.flagsByte &&& TDB_KV_FLAG_DELTA_SEQ ≠ 0) ↔ r.deltaSeq = true := by
  rw [RecordSpec.flagsByte, TDB_KV_FLAG_DELTA_SEQ]
  cases r.tombstone <;> cases r.hasTTL <;> cases r.hasVlog <;>
    cases r.deltaSeq <;> simp <;> decide

theorem flagsByte_tombstone (r : RecordSpec) :
    (r.flagsByte &&& TDB_KV_FLAG_TOMBSTONE ≠ 0) ↔ r.tombstone = true := by
  rw [RecordSpec.flagsByte, TDB_KV_FLAG_TOMBSTONE]
  cases r.tombstone <;> cases r.hasTTL <;> cases r.hasVlog <;>
    cases r.deltaSeq <;> simp <;> decide

/-- Little-endian reads relocate along an appended layout. -/
theorem leDecode_append {pre mid post : List Nat} :
    ∀ n j, j + n ≤ mid.length →
      leDecode (pre ++ (mid ++ post)) (pre.length + j) n = leDecode mid j n := by
  intro n
  induction n with
  | zero => intro j _; rw [leDecode, leDecode]
  | succ n ih =>
    intro j hj
    rw [leDecode, leDecode]
    have hb : byteAt (pre ++ (mid ++ post)) (pre.length + j) = byteAt mid j := by
      rw [byteAt_append_middle (by omega), byteAt]
    rw [hb]
    have := ih (j + 1) (by omega)
    rw [show pre.length + j + 1 = pre.length + (j + 1) by omega, this]

/-- Byte-run reads relocate along an appended layout. -/
theorem sliceAt_append {pre mid post : List Nat} :
    sliceAt (pre ++ (mid ++ post)) pre.length mid.length = mid := by
  rw [sliceAt, List.drop_left, List.take_left]

theorem encodeRecord_length (r : RecordSpec) :
    (encodeRecord r).length =
      1 + (encodeVarint r.key.length).length +
        (encodeVarint r.value.length).length +
        (encodeVarint r.seqEnc).length + r.ttlField.length +
        r.vlogField.length + r.key.length + r.valueField.length := by
  simp [encodeRecord]
  omega

/-- Stage lemma for the record round trip: the key/value byte runs over the
encoded layout. -/
theorem decodeKeyValue_encode (r : RecordSpec)
    (hk64 : r.key.length < 2 ^ 64) (hv64 : r.value.length < 2 ^ 64)
    (pre post : List Nat) (prevSeq : Nat) (q ttlv vo : Nat)
    (hq : q = (decodedOf r prevSeq).seq)
    (httlv : ttlv = (decodedOf r prevSeq).ttl)
    (hvo : vo = (decodedOf r prevSeq).vlogOffset)
    (hD6 : pre ++ (encodeRecord r ++ post) = ((((((pre ++ [r.flagsByte]) ++ encodeVarint r.key.length) ++ encodeVarint r.value.length) ++ encodeVarint r.seqEnc) ++ r.ttlField) ++ r.vlogField) ++ (r.key ++ (r.valueField ++ post)))
    (hD7 : pre ++ (encodeRecord r ++ post) = (((((((pre ++ [r.flagsByte]) ++ encodeVarint r.key.length) ++ encodeVarint r.value.length) ++ encodeVarint r.seqEnc) ++ r.ttlField) ++ r.vlogField) ++ r.key) ++ (r.valueField ++ post)) :
    decodeKeyValue (pre ++ (encodeRecord r ++ post)) (((((((pre ++ [r.flagsByte]) ++ encodeVarint r.key.length) ++ encodeVarint r.value.length) ++ encodeVarint r.seqEnc) ++ r.ttlField) ++ r.vlogField)).length
      (r.key.length + (r.valueField.length + post.length)) r.flagsByte
      r.key.length r.value.length q ttlv vo =
      some (decodedOf r prevSeq, pre.length + (encodeRecord r).length,
        post.length) := by
  have hlen := encodeRecord_length r
  rw [decodeKeyValue, if_neg (by omega)]
  have hkey : sliceAt (pre ++ (encodeRecord r ++ post)) (((((((pre ++ [r.flagsByte]) ++ encodeVarint r.key.length) ++ encodeVarint r.value.length) ++ encodeVarint r.seqEnc) ++ r.ttlField) ++ r.vlogField)).length
      r.key.length = r.key := by
    rw [hD6]
    exact @sliceAt_append (((((((pre ++ [r.flagsByte]) ++ encodeVarint r.key.length) ++ encodeVarint r.value.length) ++ encodeVarint r.seqEnc) ++ r.ttlField) ++ r.vlogField)) r.key (r.valueField ++ post)
  by_cases hInl : r.flagsByte &&& TDB_KV_FLAG_HAS_VLOG = 0 ∧ 0 < r.value.length
  case pos =>
    have hnV : ¬ r.hasVlog = true := fun hc => (flagsByte_vlog r).mpr hc hInl.1
    have hvalF : r.valueField = r.value := by
      rw [RecordSpec.valueField, if_pos ⟨by simpa using hnV, hInl.2⟩]
    rw [if_pos hInl, if_neg (by rw [hvalF] at hlen ⊢; omega)]
    have hval : sliceAt (pre ++ (encodeRecord r ++ post))
        ((((((((pre ++ [r.flagsByte]) ++ encodeVarint r.key.length) ++ encodeVarint r.value.length) ++ encodeVarint r.seqEnc) ++ r.ttlField) ++ r.vlogField)).length + r.key.length) r.value.length = r.value := by
      rw [hD7, hvalF, show (((((((pre ++ [r.flagsByte]) ++ encodeVarint r.key.length) ++ encodeVarint r.value.length) ++ encodeVarint r.seqEnc) ++ r.ttlField) ++ r.vlogField)).length + r.key.length = ((((((((pre ++ [r.flagsByte]) ++ encodeVarint r.key.length) ++ encodeVarint r.value.length) ++ encodeVarint r.seqEnc) ++ r.ttlField) ++ r.vlogField) ++ r.key)).length by
        simp only [List.length_append, List.length_singleton]
        all_goals omega]
      exact @sliceAt_append ((((((((pre ++ [r.flagsByte]) ++ encodeVarint r.key.length) ++ encodeVarint r.value.length) ++ encodeVarint r.seqEnc) ++ r.ttlField) ++ r.vlogField) ++ r.key)) r.value post
    rw [hkey, hval]
    have hrec : ((⟨r.flagsByte, r.key.length, r.value.length, q, ttlv, vo,
        r.key, some r.value⟩ : DecodedRecord)) = decodedOf r prevSeq := by
      rw [hq, httlv, hvo, decodedOf]
      simp [hInl.2, hnV]
    rw [hrec]
    have hoff : (((((((pre ++ [r.flagsByte]) ++ encodeVarint r.key.length) ++ encodeVarint r.value.length) ++ encodeVarint r.seqEnc) ++ r.ttlField) ++ r.vlogField)).length + r.key.length + r.value.length =
        pre.length + (encodeRecord r).length := by
      have hvf : r.valueField.length = r.value.length := by rw [hvalF]
      simp only [List.length_append, List.length_singleton]
      omega
    have hrem : r.key.length + (r.valueField.length + post.length) -
        r.key.length - r.value.length = post.length := by
      have hvf : r.valueField.length = r.value.length := by rw [hvalF]
      omega
    rw [hoff, hrem]
  case neg =>
    have hvalF : r.valueField.length = 0 := by
      rw [RecordSpec.valueField]
      split
      case isTrue hc =>
        have h4 : r.flagsByte &&& TDB_KV_FLAG_HAS_VLOG = 0 := by
          by_contra hz
          exact hc.1 ((flagsByte_vlog r).mp hz)
        exact absurd ⟨h4, hc.2⟩ hInl
      case isFalse => rfl
    rw [if_neg hInl, hkey]
    have hrec : ((⟨r.flagsByte, r.key.length, r.value.length, q, ttlv, vo,
        r.key, none⟩ : DecodedRecord)) = decodedOf r prevSeq := by
      rw [hq, httlv, hvo, decodedOf]
      have hcond : ¬ (¬ r.hasVlog = true ∧ 0 < r.value.length) := by
        intro hc
        apply hInl
        have h4 : r.flagsByte &&& TDB_KV_FLAG_HAS_VLOG = 0 := by
          by_contra hz
          exact hc.1 ((flagsByte_vlog r).mp hz)
        exact ⟨h4, hc.2⟩
      simp only [if_neg hcond]
    rw [hrec]
    have hoff : (((((((pre ++ [r.flagsByte]) ++ encodeVarint r.key.length) ++ encodeVarint r.value.length) ++ encodeVarint r.seqEnc) ++ r.ttlField) ++ r.vlogField)).length + r.key.length =
        pre.length + (encodeRecord r).length := by
      simp only [List.length_append, List.length_singleton]
      omega
    have hrem : r.key.length + (r.valueField.length + post.length) -
        r.key.length = post.length := by omega
    rw [hoff, hrem]

/-- Stage lemma for the record round trip: the value-log step onward. -/
theorem decodeAfterTTL_encode (r : RecordSpec)
    (hk64 : r.key.length < 2 ^ 64) (hv64 : r.value.length < 2 ^ 64)
    (hvo64 : r.hasVlog = true → r.vlogOff < 2 ^ 64) (pre post : List Nat)
    (prevSeq : Nat) (q ttlv : Nat)
    (hq : q = (decodedOf r prevSeq).seq)
    (httlv : ttlv = (decodedOf r prevSeq).ttl)
    (hD5 : pre ++ (encodeRecord r ++ post) = (((((pre ++ [r.flagsByte]) ++ encodeVarint r.key.length) ++ encodeVarint r.value.length) ++ encodeVarint r.seqEnc) ++ r.ttlField) ++ (r.vlogField ++ (r.key ++ (r.valueField ++ post))))
    (hD6 : pre ++ (encodeRecord r ++ post) = ((((((pre ++ [r.flagsByte]) ++ encodeVarint r.key.length) ++ encodeVarint r.value.length) ++ encodeVarint r.seqEnc) ++ r.ttlField) ++ r.vlogField) ++ (r.key ++ (r.valueField ++ post)))
    (hD7 : pre ++ (encodeRecord r ++ post) = (((((((pre ++ [r.flagsByte]) ++ encodeVarint r.key.length) ++ encodeVarint r.value.length) ++ encodeVarint r.seqEnc) ++ r.ttlField) ++ r.vlogField) ++ r.key) ++ (r.valueField ++ post)) :
    decodeAfterTTL (pre ++ (encodeRecord r ++ post)) ((((((pre ++ [r.flagsByte]) ++ encodeVarint r.key.length) ++ encodeVarint r.value.length) ++ encodeVarint r.seqEnc) ++ r.ttlField)).length
      (r.vlogField.length + (r.key.length + (r.valueField.length +
        post.length))) r.flagsByte r.key.length r.value.length q ttlv =
      some (decodedOf r prevSeq, pre.length + (encodeRecord r).length,
        post.length) := by
  have hlen := encodeRecord_length r
  rw [decodeAfterTTL]
  by_cases hV : r.hasVlog
  case pos =>
    have hVf : r.vlogField = encodeVarint r.vlogOff := by
      rw [RecordSpec.vlogField, if_pos hV]
    have hvar : decode_varint_safe (pre ++ (encodeRecord r ++ post))
        ((((((pre ++ [r.flagsByte]) ++ encodeVarint r.key.length) ++ encodeVarint r.value.length) ++ encodeVarint r.seqEnc) ++ r.ttlField)).length
        (r.vlogField.length + (r.key.length + (r.valueField.length +
          post.length))) =
        some ((encodeVarint r.vlogOff).length, r.vlogOff) := by
      rw [hD5, hVf]
      exact decode_varint_at (hvo64 hV) (by omega)
    rw [if_pos ((flagsByte_vlog r).mpr hV), hvar]
    dsimp only
    rw [if_neg (by rw [hVf]; omega)]
    rw [show ((((((pre ++ [r.flagsByte]) ++ encodeVarint r.key.length) ++ encodeVarint r.value.length) ++ encodeVarint r.seqEnc) ++ r.ttlField)).length + (encodeVarint r.vlogOff).length =
      (((((((pre ++ [r.flagsByte]) ++ encodeVarint r.key.length) ++ encodeVarint r.value.length) ++ encodeVarint r.seqEnc) ++ r.ttlField) ++ r.vlogField)).length by
        simp only [List.length_append, List.length_singleton, hVf]
        all_goals omega]
    rw [show r.vlogField.length + (r.key.length + (r.valueField.length +
      post.length)) - (encodeVarint r.vlogOff).length =
      r.key.length + (r.valueField.length + post.length) by
        rw [hVf]; omega]
    exact decodeKeyValue_encode r hk64 hv64 pre post prevSeq q ttlv r.vlogOff
      hq httlv (by rw [decodedOf]; simp [hV]) hD6 hD7
  case neg =>
    have hVf : r.vlogField.length = 0 := by
      rw [RecordSpec.vlogField, if_neg hV]
      rfl
    rw [if_neg (fun hc => hV ((flagsByte_vlog r).mp hc))]
    rw [show r.vlogField.length + (r.key.length + (r.valueField.length +
      post.length)) = r.key.length + (r.valueField.length + post.length) by
        omega]
    rw [show ((((((pre ++ [r.flagsByte]) ++ encodeVarint r.key.length) ++ encodeVarint r.value.length) ++ encodeVarint r.seqEnc) ++ r.ttlField)).length = (((((((pre ++ [r.flagsByte]) ++ encodeVarint r.key.length) ++ encodeVarint r.value.length) ++ encodeVarint r.seqEnc) ++ r.ttlField) ++ r.vlogField)).length by
      simp only [List.length_append, List.length_singleton, hVf]
      all_goals omega]
    exact decodeKeyValue_encode r hk64 hv64 pre post prevSeq q ttlv 0
      hq httlv (by rw [decodedOf]; simp [hV]) hD6 hD7

/-- Record-level round trip: the table decoder over a window that starts with
`encodeRecord r` reconstructs exactly the encoded record, consumes exactly
the encoding, and leaves the rest of the window. -/
theorem decodeRecordAt_encode (r : RecordSpec) (hwf : r.WF) (pre post : List Nat)
    (prevSeq : Nat) :
    decodeRecordAt (pre ++ (encodeRecord r ++ post)) pre.length
      ((encodeRecord r).length + post.length) prevSeq =
      some (decodedOf r prevSeq, pre.length + (encodeRecord r).length,
        post.length) := by
  obtain ⟨hk64, hv64, hs64, httl8, hvo64⟩ := hwf
  have hlen := encodeRecord_length r
  have hD0 : pre ++ (encodeRecord r ++ post) = pre ++ ([r.flagsByte] ++ (encodeVarint r.key.length ++ (encodeVarint r.value.length ++ (encodeVarint r.seqEnc ++ (r.ttlField ++ (r.vlogField ++ (r.key ++ (r.valueField ++ post)))))))) := by
    simp [encodeRecord]
  have hD1 : pre ++ (encodeRecord r ++ post) = (pre ++ [r.flagsByte]) ++ (encodeVarint r.key.length ++ (encodeVarint r.value.length ++ (encodeVarint r.seqEnc ++ (r.ttlField ++ (r.vlogField ++ (r.key ++ (r.valueField ++ post))))))) := by
    simp [encodeRecord]
  have hD2 : pre ++ (encodeRecord r ++ post) = ((pre ++ [r.flagsByte]) ++ encodeVarint r.key.length) ++ (encodeVarint r.value.length ++ (encodeVarint r.seqEnc ++ (r.ttlField ++ (r.vlogField ++ (r.key ++ (r.valueField ++ post)))))) := by
    simp [encodeRecord]
  have hD3 : pre ++ (encodeRecord r ++ post) = (((pre ++ [r.flagsByte]) ++ encodeVarint r.key.length) ++ encodeVarint r.value.length) ++ (encodeVarint r.seqEnc ++ (r.ttlField ++ (r.vlogField ++ (r.key ++ (r.valueField ++ post))))) := by
    simp [encodeRecord]
  have hD4 : pre ++ (encodeRecord r ++ post) = ((((pre ++ [r.flagsByte]) ++ encodeVarint r.key.length) ++ encodeVarint r.value.length) ++ encodeVarint r.seqEnc) ++ (r.ttlField ++ (r.vlogField ++ (r.key ++ (r.valueField ++ post)))) := by
    simp [encodeRecord]
  have hD5 : pre ++ (encodeRecord r ++ post) = (((((pre ++ [r.flagsByte]) ++ encodeVarint r.key.length) ++ encodeVarint r.value.length) ++ encodeVarint r.seqEnc) ++ r.ttlField) ++ (r.vlogField ++ (r.key ++ (r.valueField ++ post))) := by
    simp [encodeRecord]
  have hD6 : pre ++ (encodeRecord r ++ post) = ((((((pre ++ [r.flagsByte]) ++ encodeVarint r.key.length) ++ encodeVarint r.value.length) ++ encodeVarint r.seqEnc) ++ r.ttlField) ++ r.vlogField) ++ (r.key ++ (r.valueField ++ post)) := by
    simp [encodeRecord]
  have hD7 : pre ++ (encodeRecord r ++ post) = (((((((pre ++ [r.flagsByte]) ++ encodeVarint r.key.length) ++ encodeVarint r.value.length) ++ encodeVarint r.seqEnc) ++ r.ttlField) ++ r.vlogField) ++ r.key) ++ (r.valueField ++ post) := by
    simp [encodeRecord]
  have hflags : byteAt (pre ++ (encodeRecord r ++ post)) pre.length =
      r.flagsByte := by
    rw [hD0]
    have h0 := @byteAt_append_middle pre [r.flagsByte] (encodeVarint r.key.length ++ (encodeVarint r.value.length ++ (encodeVarint r.seqEnc ++ (r.ttlField ++ (r.vlogField ++ (r.key ++ (r.valueField ++ post))))))) 0 (by simp)
    rw [Nat.add_zero] at h0
    rw [h0]
    simp [Nat.mod_eq_of_lt (flagsByte_lt r)]
  have hvar1 : decode_varint_safe (pre ++ (encodeRecord r ++ post))
      (pre.length + 1) ((encodeRecord r).length + post.length - 1) =
      some ((encodeVarint r.key.length).length, r.key.length) := by
    rw [hD1, show pre.length + 1 = ((pre ++ [r.flagsByte])).length by simp]
    exact decode_varint_at hk64 (by omega)
  have hvar2 : decode_varint_safe (pre ++ (encodeRecord r ++ post))
      (pre.length + 1 + (encodeVarint r.key.length).length)
      ((encodeRecord r).length + post.length - 1 - (encodeVarint r.key.length).length) =
      some ((encodeVarint r.value.length).length, r.value.length) := by
    rw [hD2, show pre.length + 1 + (encodeVarint r.key.length).length = (((pre ++ [r.flagsByte]) ++ encodeVarint r.key.length)).length by
      simp only [List.length_append, List.length_singleton]
      all_goals omega]
    exact decode_varint_at hv64 (by omega)
  have hvar3 : decode_varint_safe (pre ++ (encodeRecord r ++ post))
      (pre.length + 1 + (encodeVarint r.key.length).length + (encodeVarint r.value.length).length)
      ((encodeRecord r).length + post.length - 1 - (encodeVarint r.key.length).length -
        (encodeVarint r.value.length).length) =
      some ((encodeVarint r.seqEnc).length, r.seqEnc) := by
    rw [hD3, show pre.length + 1 + (encodeVarint r.key.length).length + (encodeVarint r.value.length).length =
      ((((pre ++ [r.flagsByte]) ++ encodeVarint r.key.length) ++ encodeVarint r.value.length)).length by
      simp only [List.length_append, List.length_singleton]
      all_goals omega]
    exact decode_varint_at hs64 (by omega)
  rw [decodeRecordAt, if_neg (by omega), hvar1]
  dsimp only
  rw [if_neg (by omega), hvar2]
  dsimp only
  rw [if_neg (by omega), hvar3]
  dsimp only
  rw [if_neg (by omega), hflags]
  have hseq : (if r.flagsByte &&& TDB_KV_FLAG_DELTA_SEQ ≠ 0 then
      (prevSeq + r.seqEnc) % 2 ^ 64 else r.seqEnc) =
      (decodedOf r prevSeq).seq := by
    rw [decodedOf]
    by_cases hd : r.deltaSeq
    · rw [if_pos ((flagsByte_delta r).mpr hd)]
      simp [hd]
    · rw [if_neg (fun hc => hd ((flagsByte_delta r).mp hc))]
      simp [hd]
  have hoff4 : pre.length + 1 + (encodeVarint r.key.length).length + (encodeVarint r.value.length).length +
      (encodeVarint r.seqEnc).length = (((((pre ++ [r.flagsByte]) ++ encodeVarint r.key.length) ++ encodeVarint r.value.length) ++ encodeVarint r.seqEnc)).length := by
    simp only [List.length_append, List.length_singleton]
    all_goals omega
  have hrem4 : (encodeRecord r).length + post.length - 1 - (encodeVarint r.key.length).length -
      (encodeVarint r.value.length).length - (encodeVarint r.seqEnc).length =
      r.ttlField.length + (r.vlogField.length + (r.key.length +
        (r.valueField.length + post.length))) := by omega
  rw [hoff4, hrem4, decodeAfterSeq]
  by_cases hT : r.hasTTL
  case pos =>
    have hT8 : r.ttlField.length = 8 := by
      rw [RecordSpec.ttlField, if_pos hT]
      exact httl8 hT
    rw [if_pos ((flagsByte_ttl r).mpr hT), if_neg (by omega)]
    have httlval : leDecode (pre ++ (encodeRecord r ++ post))
        (((((pre ++ [r.flagsByte]) ++ encodeVarint r.key.length) ++ encodeVarint r.value.length) ++ encodeVarint r.seqEnc)).length 8 = (decodedOf r prevSeq).ttl := by
      rw [hD4, decodedOf]
      have hmid : r.ttlField = r.ttlBytes := by
        rw [RecordSpec.ttlField, if_pos hT]
      have h8 := @leDecode_append (((((pre ++ [r.flagsByte]) ++ encodeVarint r.key.length) ++ encodeVarint r.value.length) ++ encodeVarint r.seqEnc)) r.ttlField (r.vlogField ++ (r.key ++ (r.valueField ++ post))) 8 0 (by omega)
      rw [Nat.add_zero] at h8
      rw [show r.ttlField ++ (r.vlogField ++ (r.key ++ (r.valueField ++ post))) = r.ttlField ++ (r.vlogField ++ (r.key ++ (r.valueField ++ post))) from rfl] at h8
      rw [h8, hmid]
      simp [hT]
    rw [show (((((pre ++ [r.flagsByte]) ++ encodeVarint r.key.length) ++ encodeVarint r.value.length) ++ encodeVarint r.seqEnc)).length + 8 = ((((((pre ++ [r.flagsByte]) ++ encodeVarint r.key.length) ++ encodeVarint r.value.length) ++ encodeVarint r.seqEnc) ++ r.ttlField)).length by
      simp only [List.length_append, List.length_singleton, hT8]
      all_goals omega]
    rw [show r.ttlField.length + (r.vlogField.length + (r.key.length +
      (r.valueField.length + post.length))) - 8 =
      r.vlogField.length + (r.key.length + (r.valueField.length +
        post.length)) by omega]
    exact decodeAfterTTL_encode r hk64 hv64 hvo64 pre post prevSeq _ _
      hseq httlval hD5 hD6 hD7
  case neg =>
    have hT0 : r.ttlField.length = 0 := by
      rw [RecordSpec.ttlField, if_neg hT]
      rfl
    rw [if_neg (fun hc => hT ((flagsByte_ttl r).mp hc))]
    rw [show r.ttlField.length + (r.vlogField.length + (r.key.length +
      (r.valueField.length + post.length))) =
      r.vlogField.length + (r.key.length + (r.valueField.length +
        post.length)) by omega]
    rw [show (((((pre ++ [r.flagsByte]) ++ encodeVarint r.key.length) ++ encodeVarint r.value.length) ++ encodeVarint r.seqEnc)).length = ((((((pre ++ [r.flagsByte]) ++ encodeVarint r.key.length) ++ encodeVarint r.value.length) ++ encodeVarint r.seqEnc) ++ r.ttlField)).length by
      rw [show ((((((pre ++ [r.flagsByte]) ++ encodeVarint r.key.length) ++ encodeVarint r.value.length) ++ encodeVarint r.seqEnc) ++ r.ttlField)) = (((((pre ++ [r.flagsByte]) ++ encodeVarint r.key.length) ++ encodeVarint r.value.length) ++ encodeVarint r.seqEnc)) ++ r.ttlField from rfl]; simp [hT0]]
    exact decodeAfterTTL_encode r hk64 hv64 hvo64 pre post prevSeq _ _
      hseq (by rw [decodedOf]; simp [hT]) hD5 hD6 hD7


/-- Stage lemma for truncation: a cut inside the key or inline-value byte run
fails the respective budget check. -/
theorem decodeKeyValue_truncated (r : RecordSpec)
    (hlen : (encodeRecord r).length =
      1 + (encodeVarint r.key.length).length + (encodeVarint r.value.length).length + (encodeVarint r.seqEnc).length + r.ttlField.length +
        r.vlogField.length + r.key.length + r.valueField.length)
    {k off rem q ttlv vo : Nat} (hk : k < (encodeRecord r).length)
    (hoff : off = 1 + (encodeVarint r.key.length).length + (encodeVarint r.value.length).length + (encodeVarint r.seqEnc).length +
      r.ttlField.length + r.vlogField.length)
    (hrem : rem = k - off) (hoffk : off ≤ k) :
    decodeKeyValue ((encodeRecord r).take k) off rem r.flagsByte
      r.key.length r.value.length q ttlv vo = none := by
  rw [decodeKeyValue]
  by_cases h6 : k < off + r.key.length
  case pos =>
    rw [if_pos (by omega)]
  case neg =>
    rw [if_neg (by omega)]
    have hvalpos : 0 < r.valueField.length := by omega
    have hcond : ¬ r.hasVlog = true ∧ 0 < r.value.length := by
      rw [RecordSpec.valueField] at hvalpos
      by_cases hc : ¬ r.hasVlog = true ∧ 0 < r.value.length
      · exact hc
      · rw [if_neg hc] at hvalpos
        simp at hvalpos
    have hvalF : r.valueField = r.value := by
      rw [RecordSpec.valueField, if_pos hcond]
    have h4 : r.flagsByte &&& TDB_KV_FLAG_HAS_VLOG = 0 := by
      by_contra hz
      exact hcond.1 ((flagsByte_vlog r).mp hz)
    rw [if_pos ⟨h4, hcond.2⟩]
    have hvflen : r.valueField.length = r.value.length := by rw [hvalF]
    rw [if_pos (by omega)]

/-- Stage lemma for truncation: a cut at or after the TTL field fails in the
value-log varint, the key run or the inline-value run. -/
theorem decodeAfterTTL_truncated (r : RecordSpec)
    (hk64 : r.key.length < 2 ^ 64) (hv64 : r.value.length < 2 ^ 64)
    (hvo64 : r.hasVlog = true → r.vlogOff < 2 ^ 64)
    (hlen : (encodeRecord r).length =
      1 + (encodeVarint r.key.length).length + (encodeVarint r.value.length).length + (encodeVarint r.seqEnc).length + r.ttlField.length +
        r.vlogField.length + r.key.length + r.valueField.length)
    {k off rem q ttlv : Nat} (hk : k < (encodeRecord r).length)
    (hoff : off = 1 + (encodeVarint r.key.length).length + (encodeVarint r.value.length).length + (encodeVarint r.seqEnc).length +
      r.ttlField.length)
    (hrem : rem = k - off) (hoffk : off ≤ k)
    (hE5 : encodeRecord r = (((([r.flagsByte] ++ encodeVarint r.key.length) ++ encodeVarint r.value.length) ++ encodeVarint r.seqEnc) ++ r.ttlField) ++ (r.vlogField ++ (r.key ++ r.valueField)))
    (hbyte : ∀ j, j < k →
      byteAt ((encodeRecord r).take k) j = byteAt (encodeRecord r) j) :
    decodeAfterTTL ((encodeRecord r).take k) off rem r.flagsByte
      r.key.length r.value.length q ttlv = none := by
  have hq5len : ((((([r.flagsByte] ++ encodeVarint r.key.length) ++ encodeVarint r.value.length) ++ encodeVarint r.seqEnc) ++ r.ttlField)).length = off := by
    simp only [List.length_append, List.length_singleton]
    all_goals omega
  rw [decodeAfterTTL]
  by_cases hV : r.hasVlog
  case pos =>
    have hVf : r.vlogField = encodeVarint r.vlogOff := by
      rw [RecordSpec.vlogField, if_pos hV]
    rw [hVf] at hE5 hlen
    rw [if_pos ((flagsByte_vlog r).mpr hV)]
    by_cases h5 : k < off + (encodeVarint r.vlogOff).length
    case pos =>
      have hnone : decode_varint_safe ((encodeRecord r).take k) off rem =
          none := by
        apply decode_varint_safe_prefix_none (v := r.vlogOff) _ (by omega)
        intro j hj
        rw [hbyte (off + j) (by omega), hE5,
          show off + j = ((((([r.flagsByte] ++ encodeVarint r.key.length) ++ encodeVarint r.value.length) ++ encodeVarint r.seqEnc) ++ r.ttlField)).length + j by omega,
          byteAt_append_middle (by omega),
          Nat.mod_eq_of_lt (encodeVarint_byte_lt _ j)]
      rw [hnone]
    case neg =>
      have hvarv : decode_varint_safe ((encodeRecord r).take k) off rem =
          some ((encodeVarint r.vlogOff).length, r.vlogOff) := by
        apply decode_varint_safe_encode (hvo64 hV) _ (by omega)
        intro j hj
        rw [hbyte (off + j) (by omega), hE5,
          show off + j = ((((([r.flagsByte] ++ encodeVarint r.key.length) ++ encodeVarint r.value.length) ++ encodeVarint r.seqEnc) ++ r.ttlField)).length + j by omega,
          byteAt_append_middle (by omega),
          Nat.mod_eq_of_lt (encodeVarint_byte_lt _ j)]
      rw [hvarv]
      dsimp only
      rw [if_neg (by omega)]
      apply decodeKeyValue_truncated r _ hk
        (by rw [hVf]; omega) (by omega) (by omega)
      rw [hVf]
      exact hlen
  case neg =>
    have hVf : r.vlogField.length = 0 := by
      rw [RecordSpec.vlogField, if_neg hV]
      rfl
    rw [if_neg (fun hc => hV ((flagsByte_vlog r).mp hc))]
    exact decodeKeyValue_truncated r hlen hk (by omega) (by omega) (by omega)

/-- Truncating an encoded record anywhere strictly inside it makes the table
record decoder fail: every cut lands inside some field, and the decode step
for that field reports the bounded failure. -/
theorem decodeRecordAt_truncated (r : RecordSpec) (hwf : r.WF) :
    ∀ k, k < (encodeRecord r).length → ∀ prevSeq,
      decodeRecordAt ((encodeRecord r).take k) 0 k prevSeq = none := by
  obtain ⟨hk64, hv64, hs64, httl8, hvo64⟩ := hwf
  have hlen := encodeRecord_length r
  intro k hk prevSeq
  by_cases hk0 : k = 0
  case pos =>
    subst hk0
    rw [decodeRecordAt, if_pos (by omega)]
  case neg =>
  -- shapes of the encoding
  have hE1 : encodeRecord r = [r.flagsByte] ++ (encodeVarint r.key.length ++ (encodeVarint r.value.length ++ (encodeVarint r.seqEnc ++ (r.ttlField ++ (r.vlogField ++ (r.key ++ r.valueField)))))) := by simp [encodeRecord]
  have hE2 : encodeRecord r = ([r.flagsByte] ++ encodeVarint r.key.length) ++ (encodeVarint r.value.length ++ (encodeVarint r.seqEnc ++ (r.ttlField ++ (r.vlogField ++ (r.key ++ r.valueField))))) := by simp [encodeRecord]
  have hE3 : encodeRecord r = (([r.flagsByte] ++ encodeVarint r.key.length) ++ encodeVarint r.value.length) ++ (encodeVarint r.seqEnc ++ (r.ttlField ++ (r.vlogField ++ (r.key ++ r.valueField)))) := by simp [encodeRecord]
  have hE4 : encodeRecord r = ((([r.flagsByte] ++ encodeVarint r.key.length) ++ encodeVarint r.value.length) ++ encodeVarint r.seqEnc) ++ (r.ttlField ++ (r.vlogField ++ (r.key ++ r.valueField))) := by simp [encodeRecord]
  have hE5 : encodeRecord r = (((([r.flagsByte] ++ encodeVarint r.key.length) ++ encodeVarint r.value.length) ++ encodeVarint r.seqEnc) ++ r.ttlField) ++ (r.vlogField ++ (r.key ++ r.valueField)) := by simp [encodeRecord]
  have hE6 : encodeRecord r = ((((([r.flagsByte] ++ encodeVarint r.key.length) ++ encodeVarint r.value.length) ++ encodeVarint r.seqEnc) ++ r.ttlField) ++ r.vlogField) ++ (r.key ++ r.valueField) := by simp [encodeRecord]
  have hE7 : encodeRecord r = (((((([r.flagsByte] ++ encodeVarint r.key.length) ++ encodeVarint r.value.length) ++ encodeVarint r.seqEnc) ++ r.ttlField) ++ r.vlogField) ++ r.key) ++ r.valueField := by simp [encodeRecord]
  have hbyte : ∀ j, j < k →
      byteAt ((encodeRecord r).take k) j = byteAt (encodeRecord r) j := by
    intro j hj
    rw [byteAt, getD_take_lt hj, byteAt]
  have hflags : byteAt ((encodeRecord r).take k) 0 = r.flagsByte := by
    rw [hbyte 0 (by omega), hE1, byteAt, getD_append_left (by simp)]
    simp [Nat.mod_eq_of_lt (flagsByte_lt r)]
  rw [decodeRecordAt, if_neg (by omega), hflags]
  by_cases h1 : k < 1 + (encodeVarint r.key.length).length
  case pos =>
    -- cut inside the key-size varint
    have hnone : decode_varint_safe ((encodeRecord r).take k) 1 (k - 1) =
        none := by
      apply decode_varint_safe_prefix_none (v := r.key.length) _ (by omega)
      intro j hj
      rw [hbyte (1 + j) (by omega), hE1,
        show (1 : Nat) + j = ([r.flagsByte]).length + j by simp,
        byteAt_append_middle (by omega),
        Nat.mod_eq_of_lt (encodeVarint_byte_lt _ j)]
    rw [hnone]
  case neg =>
  have hvar1 : decode_varint_safe ((encodeRecord r).take k) 1 (k - 1) =
      some ((encodeVarint r.key.length).length, r.key.length) := by
    apply decode_varint_safe_encode hk64 _ (by omega)
    intro j hj
    rw [hbyte (1 + j) (by omega), hE1,
      show (1 : Nat) + j = ([r.flagsByte]).length + j by simp,
      byteAt_append_middle (by omega),
      Nat.mod_eq_of_lt (encodeVarint_byte_lt _ j)]
  rw [hvar1]
  dsimp only
  rw [if_neg (by omega)]
  by_cases h2 : k < 1 + (encodeVarint r.key.length).length + (encodeVarint r.value.length).length
  case pos =>
    have hnone : decode_varint_safe ((encodeRecord r).take k)
        (1 + (encodeVarint r.key.length).length) (k - 1 - (encodeVarint r.key.length).length) = none := by
      apply decode_varint_safe_prefix_none (v := r.value.length) _ (by omega)
      intro j hj
      rw [hbyte (1 + (encodeVarint r.key.length).length + j) (by omega), hE2,
        show (1 : Nat) + (encodeVarint r.key.length).length + j = (([r.flagsByte] ++ encodeVarint r.key.length)).length + j by
          simp only [List.length_append, List.length_singleton]
          all_goals omega,
        byteAt_append_middle (by omega),
        Nat.mod_eq_of_lt (encodeVarint_byte_lt _ j)]
    rw [hnone]
  case neg =>
  have hvar2 : decode_varint_safe ((encodeRecord r).take k)
      (1 + (encodeVarint r.key.length).length) (k - 1 - (encodeVarint r.key.length).length) =
      some ((encodeVarint r.value.length).length, r.value.length) := by
    apply decode_varint_safe_encode hv64 _ (by omega)
    intro j hj
    rw [hbyte (1 + (encodeVarint r.key.length).length + j) (by omega), hE2,
      show (1 : Nat) + (encodeVarint r.key.length).length + j = (([r.flagsByte] ++ encodeVarint r.key.length)).length + j by
        simp only [List.length_append, List.length_singleton]
        all_goals omega,
      byteAt_append_middle (by omega),
      Nat.mod_eq_of_lt (encodeVarint_byte_lt _ j)]
  rw [hvar2]
  dsimp only
  rw [if_neg (by omega)]
  by_cases h3 : k < 1 + (encodeVarint r.key.length).length + (encodeVarint r.value.length).length + (encodeVarint r.seqEnc).length
  case pos =>
    have hnone : decode_varint_safe ((encodeRecord r).take k)
        (1 + (encodeVarint r.key.length).length + (encodeVarint r.value.length).length)
        (k - 1 - (encodeVarint r.key.length).length - (encodeVarint r.value.length).length) = none := by
      apply decode_varint_safe_prefix_none (v := r.seqEnc) _ (by omega)
      intro j hj
      rw [hbyte (1 + (encodeVarint r.key.length).length + (encodeVarint r.value.length).length + j) (by omega), hE3,
        show (1 : Nat) + (encodeVarint r.key.length).length + (encodeVarint r.value.length).length + j =
          ((([r.flagsByte] ++ encodeVarint r.key.length) ++ encodeVarint r.value.length)).length + j by
          simp only [List.length_append, List.length_singleton]
          all_goals omega,
        byteAt_append_middle (by omega),
        Nat.mod_eq_of_lt (encodeVarint_byte_lt _ j)]
    rw [hnone]
  case neg =>
  have hvar3 : decode_varint_safe ((encodeRecord r).take k)
      (1 + (encodeVarint r.key.length).length + (encodeVarint r.value.length).length)
      (k - 1 - (encodeVarint r.key.length).length - (encodeVarint r.value.length).length) =
      some ((encodeVarint r.seqEnc).length, r.seqEnc) := by
    apply decode_varint_safe_encode hs64 _ (by omega)
    intro j hj
    rw [hbyte (1 + (encodeVarint r.key.length).length + (encodeVarint r.value.length).length + j) (by omega), hE3,
      show (1 : Nat) + (encodeVarint r.key.length).length + (encodeVarint r.value.length).length + j =
        ((([r.flagsByte] ++ encodeVarint r.key.length) ++ encodeVarint r.value.length)).length + j by
        simp only [List.length_append, List.length_singleton]
        all_goals omega,
      byteAt_append_middle (by omega),
      Nat.mod_eq_of_lt (encodeVarint_byte_lt _ j)]
  rw [hvar3]
  dsimp only
  rw [if_neg (by omega), decodeAfterSeq]
  by_cases hT : r.hasTTL
  case pos =>
    have hT8 : r.ttlField.length = 8 := by
      rw [RecordSpec.ttlField, if_pos hT]
      exact httl8 hT
    rw [if_pos ((flagsByte_ttl r).mpr hT)]
    by_cases h4 : k < 1 + (encodeVarint r.key.length).length + (encodeVarint r.value.length).length + (encodeVarint r.seqEnc).length + 8
    case pos =>
      rw [if_pos (by omega)]
    case neg =>
      rw [if_neg (by omega)]
      exact decodeAfterTTL_truncated r hk64 hv64 hvo64 hlen hk
        (by omega) (by omega) (by omega) hE5 hbyte
  case neg =>
    have hT0 : r.ttlField.length = 0 := by
      rw [RecordSpec.ttlField, if_neg hT]
      rfl
    rw [if_neg (fun hc => hT ((flagsByte_ttl r).mp hc))]
    exact decodeAfterTTL_truncated r hk64 hv64 hvo64 hlen hk
      (by omega) (by omega) (by omega) hE5 hbyte
/-! ## Block-loop lemmas -/

theorem decodeBlockRecords_stop {data : List Nat} {off rem prevSeq : Nat}
    (hrem : ¬ 0 < rem) : decodeBlockRecords data off rem prevSeq = [] := by
  rw [decodeBlockRecords, if_neg hrem]

theorem decodeBlockRecords_none {data : List Nat} {off rem prevSeq : Nat}
    (hrem : 0 < rem) (h : decodeRecordAt data off rem prevSeq = none) :
    decodeBlockRecords data off rem prevSeq = [] := by
  rw [decodeBlockRecords, if_pos hrem]
  split
  · rfl
  · rename_i r off2 rem2 heq
    rw [h] at heq
    exact absurd heq (by simp)

theorem decodeBlockRecords_some {data : List Nat} {off rem prevSeq : Nat}
    {r : DecodedRecord} {off2 rem2 : Nat} (hrem : 0 < rem)
    (h : decodeRecordAt data off rem prevSeq = some (r, off2, rem2)) :
    decodeBlockRecords data off rem prevSeq =
      r :: decodeBlockRecords data off2 rem2 r.seq := by
  rw [decodeBlockRecords, if_pos hrem]
  split
  · rename_i heq
    rw [h] at heq
    exact absurd heq (by simp)
  · rename_i r' off2' rem2' heq
    rw [h] at heq
    simp only [Option.some.injEq, Prod.mk.injEq] at heq
    obtain ⟨h1, h2, h3⟩ := heq
    subst h1
    subst h2
    subst h3
    rfl

theorem decodeBlockGo_stop {data : List Nat} {off rem prevSeq limit count : Nat}
    (hcond : ¬ (0 < rem ∧ count < limit)) :
    decodeBlockGo data off rem prevSeq limit count = ([], count) := by
  rw [decodeBlockGo, if_neg hcond]

theorem decodeBlockGo_none {data : List Nat} {off rem prevSeq limit count : Nat}
    (hcond : 0 < rem ∧ count < limit)
    (h : decodeRecordAt data off rem prevSeq = none) :
    decodeBlockGo data off rem prevSeq limit count = ([], count) := by
  rw [decodeBlockGo, if_pos hcond]
  split
  · rfl
  · rename_i r off2 rem2 heq
    rw [h] at heq
    exact absurd heq (by simp)

theorem decodeBlockGo_some {data : List Nat} {off rem prevSeq limit count : Nat}
    {r : DecodedRecord} {off2 rem2 : Nat} (hcond : 0 < rem ∧ count < limit)
    (h : decodeRecordAt data off rem prevSeq = some (r, off2, rem2)) :
    decodeBlockGo data off rem prevSeq limit count =
      (r :: (decodeBlockGo data off2 rem2 r.seq limit (count + 1)).1,
        (decodeBlockGo data off2 rem2 r.seq limit (count + 1)).2) := by
  rw [decodeBlockGo, if_pos hcond]
  split
  · rename_i heq
    rw [h] at heq
    exact absurd heq (by simp)
  · rename_i r' off2' rem2' heq
    rw [h] at heq
    simp only [Option.some.injEq, Prod.mk.injEq] at heq
    obtain ⟨h1, h2, h3⟩ := heq
    subst h1
    subst h2
    subst h3
    cases hgo : decodeBlockGo data off2 rem2 r.seq limit (count + 1) with
    | mk rest c2 => rfl

/-- The inner record loop threads `total_entries` exactly: the final count is
the starting count plus the number of emitted records, and never exceeds the
limit. -/
theorem decodeBlockGo_count : ∀ {data : List Nat} {off rem prevSeq limit count : Nat},
    (decodeBlockGo data off rem prevSeq limit count).2 =
      count + (decodeBlockGo data off rem prevSeq limit count).1.length ∧
    (count ≤ limit → (decodeBlockGo data off rem prevSeq limit count).2 ≤ limit) := by
  intro data off rem prevSeq limit count
  induction off, rem, prevSeq, limit, count using decodeBlockGo.induct data with
  | case1 off rem prevSeq limit count hcond h =>
    rw [decodeBlockGo_none hcond h]
    simp
  | case2 off rem prevSeq limit count hcond r off2 rem2 h rest c2 hgo ih =>
    rw [decodeBlockGo_some hcond h]
    rw [hgo] at ih ⊢
    dsimp only at ih ⊢
    obtain ⟨ih1, ih2⟩ := ih
    constructor
    · simp only [List.length_cons]
      omega
    · intro hc
      exact ih2 (by omega)
  | case3 off rem prevSeq limit count hcond =>
    rw [decodeBlockGo_stop hcond]
    simp

/-- With enough limit headroom the limited inner loop decodes exactly the
full record list of the block. -/
theorem decodeBlockGo_eq_records : ∀ {data : List Nat} {off rem prevSeq limit count : Nat},
    count + (decodeBlockRecords data off rem prevSeq).length ≤ limit →
    decodeBlockGo data off rem prevSeq limit count =
      (decodeBlockRecords data off rem prevSeq,
        count + (decodeBlockRecords data off rem prevSeq).length) := by
  intro data off rem prevSeq limit count
  induction off, rem, prevSeq using decodeBlockRecords.induct data
    generalizing count with
  | case1 off rem prevSeq hrem h =>
    intro hroom
    rw [decodeBlockRecords_none hrem h] at hroom ⊢
    by_cases hc : count < limit
    · rw [decodeBlockGo_none ⟨hrem, hc⟩ h]
      simp
    · rw [decodeBlockGo_stop (by omega)]
      simp
  | case2 off rem prevSeq hrem r off2 rem2 h ih =>
    intro hroom
    rw [decodeBlockRecords_some hrem h] at hroom ⊢
    simp only [List.length_cons] at hroom ⊢
    rw [decodeBlockGo_some ⟨hrem, by omega⟩ h, ih (by omega)]
    dsimp only
    congr 1
    omega
  | case3 off rem prevSeq hrem =>
    intro hroom
    rw [decodeBlockRecords_stop hrem] at hroom ⊢
    rw [decodeBlockGo_stop (by omega)]
    simp

/-! ## Decoding a block of encoded records -/

/-- The records the decoder reconstructs from a sequence of encoded records,
threading the previous decoded sequence. -/
def decodedList : List RecordSpec → Nat → List DecodedRecord
  | [], _ => []
  | r :: rs, prev => decodedOf r prev :: decodedList rs (decodedOf r prev).seq

theorem encodeRecord_length_pos (r : RecordSpec) : 0 < (encodeRecord r).length := by
  rw [encodeRecord]
  simp

/-- Block-level round trip: decoding a window consisting of concatenated
record encodings yields exactly the encoded records in order. -/
theorem decodeBlockRecords_encode : ∀ (rs : List RecordSpec) (pre : List Nat)
    (prevSeq : Nat), (∀ r ∈ rs, r.WF) →
    decodeBlockRecords (pre ++ ((rs.map encodeRecord).flatten)) pre.length
      ((rs.map encodeRecord).flatten).length prevSeq = decodedList rs prevSeq := by
  intro rs
  induction rs with
  | nil =>
    intro pre prevSeq _
    rw [decodedList]
    exact decodeBlockRecords_stop (by simp)
  | cons r rs ih =>
    intro pre prevSeq hwf
    have hjoin : ((r :: rs).map encodeRecord).flatten =
        encodeRecord r ++ (rs.map encodeRecord).flatten := by simp
    rw [hjoin, decodedList]
    have hdec := decodeRecordAt_encode r (hwf r (by simp)) pre
      ((rs.map encodeRecord).flatten) prevSeq
    have hrem : (encodeRecord r ++ (rs.map encodeRecord).flatten).length =
        (encodeRecord r).length + ((rs.map encodeRecord).flatten).length := by
      simp
    rw [hrem]
    rw [decodeBlockRecords_some
      (by have := encodeRecord_length_pos r; omega) hdec]
    congr 1
    have hassoc : pre ++ (encodeRecord r ++ (rs.map encodeRecord).flatten) =
        (pre ++ encodeRecord r) ++ (rs.map encodeRecord).flatten := by
      simp
    have hlen2 : pre.length + (encodeRecord r).length =
        (pre ++ encodeRecord r).length := by simp
    rw [hassoc, hlen2]
    exact ih (pre ++ encodeRecord r) (decodedOf r prevSeq).seq
      (fun x hx => hwf x (by simp [hx]))

theorem scanl_head_tail {f : Nat → Nat → Nat} {x : Nat} {l : List Nat} :
    x :: (List.scanl f x l).tail = List.scanl f x l := by
  cases l <;> simp [List.scanl]

/-- Sequences of a run of delta-encoded records: cumulative sums from the
running previous sequence (no 64-bit wrap once the total stays below
`2 ^ 64`). -/
theorem decodedList_delta_seqs : ∀ (rs : List RecordSpec) (prev : Nat),
    (∀ r ∈ rs, r.deltaSeq = true) →
    prev + (rs.map RecordSpec.seqEnc).sum < 2 ^ 64 →
    (decodedList rs prev).map DecodedRecord.seq =
      (List.scanl (· + ·) prev (rs.map RecordSpec.seqEnc)).tail := by
  intro rs
  induction rs with
  | nil =>
    intro prev _ _
    simp [decodedList, List.scanl]
  | cons r rs ih =>
    intro prev hdelta hsum
    have hseq : (decodedOf r prev).seq = prev + r.seqEnc := by
      rw [decodedOf]
      dsimp only
      rw [if_pos (hdelta r (by simp))]
      apply Nat.mod_eq_of_lt
      simp [List.sum_cons] at hsum
      omega
    rw [decodedList, List.map_cons, hseq]
    have hsum2 : (prev + r.seqEnc) + (rs.map RecordSpec.seqEnc).sum < 2 ^ 64 := by
      simp [List.sum_cons] at hsum
      omega
    rw [ih (prev + r.seqEnc) (fun x hx => hdelta x (by simp [hx])) hsum2]
    have hscan : List.scanl (· + ·) prev
        (RecordSpec.seqEnc r :: rs.map RecordSpec.seqEnc) =
        prev :: List.scanl (· + ·) (prev + r.seqEnc)
          (rs.map RecordSpec.seqEnc) := by
      simp [List.scanl]
    rw [List.map_cons, hscan, List.tail_cons]
    exact scanl_head_tail

/-! ## Walker length bounds and unfolding -/

/-- Unfolding of the dump walker on a decodable block: each block is decoded
with the per-block previous-sequence accumulator reset to 0. -/
theorem sstableDumpGo_cons_decode {b : List Nat} {bs : List (List Nat)}
    {limit count blkIdx : Nat} (h4 : ¬ b.length < 4) (hc : count < limit) :
    sstableDumpGo (b :: bs) limit count blkIdx =
      (decodeBlockGo b 0 b.length 0 limit count).1.map (fun r => (blkIdx, r)) ++
        sstableDumpGo bs limit (decodeBlockGo b 0 b.length 0 limit count).2
          (blkIdx + 1) := by
  rw [sstableDumpGo, if_pos hc, if_neg h4]

/-- The dump walker never emits more than its remaining budget. -/
theorem sstableDumpGo_length_le : ∀ (bs : List (List Nat)) (limit count blkIdx : Nat),
    count ≤ limit →
    (sstableDumpGo bs limit count blkIdx).length ≤ limit - count := by
  intro bs
  induction bs with
  | nil =>
    intro limit count blkIdx _
    rw [sstableDumpGo]
    simp
  | cons b bs ih =>
    intro limit count blkIdx hc
    by_cases hlt : count < limit
    case neg =>
      rw [sstableDumpGo, if_neg hlt]
      simp
    case pos =>
      by_cases h4 : b.length < 4
      · rw [sstableDumpGo, if_pos hlt, if_pos h4]
        exact ih limit count (blkIdx + 1) hc
      · rw [sstableDumpGo_cons_decode h4 hlt]
        cases hgo : decodeBlockGo b 0 b.length 0 limit count with
        | mk recs c2 =>
          have hcnt := @decodeBlockGo_count b 0 b.length 0 limit count
          rw [hgo] at hcnt
          dsimp only at hcnt ⊢
          obtain ⟨h1, h2⟩ := hcnt
          have hc2 : c2 ≤ limit := h2 hc
          have := ih limit c2 (blkIdx + 1) hc2
          simp only [List.length_append, List.length_map]
          omega

/-- The entries printed by `cmd_sstable_dump` never exceed the limit. -/
theorem sstableDumpEntries_length_le (blocks : List (List Nat)) (limit : Nat) :
    (sstableDumpEntries blocks limit).length ≤ limit := by
  have := sstableDumpGo_length_le blocks limit 0 0 (by omega)
  rw [sstableDumpEntries]
  omega

/-- The WAL dump walker never emits more than its remaining budget. -/
theorem walDumpGo_length_le : ∀ (bs : List (List Nat)) (limit count : Nat),
    count ≤ limit → (walDumpGo bs limit count).length ≤ limit - count := by
  intro bs
  induction bs with
  | nil =>
    intro limit count _
    rw [walDumpGo]
    simp
  | cons b bs ih =>
    intro limit count hc
    by_cases hlt : count < limit
    case neg =>
      rw [walDumpGo, if_neg hlt]
      simp
    case pos =>
      rw [walDumpGo, if_pos hlt]
      cases hb : walDumpEntry b with
      | none => exact ih limit count hc
      | some e =>
        have := ih limit (count + 1) (by omega)
        simp only [List.length_cons]
        omega

theorem walDumpEntries_length_le (blocks : List (List Nat)) (limit : Nat) :
    (walDumpEntries blocks limit).length ≤ limit := by
  have := walDumpGo_length_le blocks limit 0 (by omega)
  rw [walDumpEntries]
  omega

/-- The full-dump walker never emits more than its remaining budget. -/
theorem fullDumpGo_length_le : ∀ {checksum : List Nat → Nat}
    {vfile : Option (List Nat)} {file : List Nat} {pos limit count blkIdx : Nat},
    count ≤ limit →
    (fullDumpGo checksum vfile file pos limit count blkIdx).1.length ≤
      limit - count := by
  intro checksum vfile file pos limit count blkIdx
  induction pos, limit, count, blkIdx using fullDumpGo.induct checksum vfile file with
  | case1 pos limit count blkIdx hcond h8 =>
    intro _
    rw [fullDumpGo, dif_pos hcond, if_pos h8]
    simp
  | case2 pos limit count blkIdx hcond h8 hsz =>
    intro _
    rw [fullDumpGo, dif_pos hcond, if_neg h8, if_pos hsz]
    simp
  | case3 pos limit count blkIdx hcond h8 hsz hrd =>
    intro _
    rw [fullDumpGo, dif_pos hcond, if_neg h8, if_neg hsz, if_pos hrd]
    simp
  | case4 pos limit count blkIdx hcond h8 hsz hrd recs c2 hgo rest cfin errs hrest ih =>
    intro hc
    rw [fullDumpGo, dif_pos hcond, if_neg h8, if_neg hsz, if_neg hrd, hgo]
    dsimp only
    rw [hrest]
    dsimp only
    have hcnt := @decodeBlockGo_count
      (sliceAt file (pos + 8) (decode_uint32_le file pos)) 0
      (decode_uint32_le file pos) 0 limit count
    rw [hgo] at hcnt
    dsimp only at hcnt
    obtain ⟨h1, h2⟩ := hcnt
    have hc2 : c2 ≤ limit := h2 hc
    have hrec := ih hc2
    rw [hrest] at hrec
    dsimp only at hrec
    simp only [List.length_append, List.length_map]
    omega
  | case5 pos limit count blkIdx hcond =>
    intro _
    rw [fullDumpGo, dif_neg hcond]
    simp

/-! ## Positional-scan lemmas -/

theorem checksumScan_head : ∀ {checksum : List Nat → Nat} {file : List Nat}
    {pos : Nat} {e : Nat × Nat × BlockStatus},
    (checksumScanGo checksum file pos).head? = some e → e.1 = pos := by
  intro checksum file pos e
  induction pos using checksumScanGo.induct checksum file with
  | case1 pos h hdr =>
    rw [checksumScanGo, dif_pos h, if_pos hdr]
    simp
  | case2 pos h hdr hsz =>
    rw [checksumScanGo, dif_pos h, if_neg hdr, if_pos hsz]
    intro he
    simp at he
    rw [← he]
  | case3 pos h hdr hsz hrd =>
    rw [checksumScanGo, dif_pos h, if_neg hdr, if_neg hsz, if_pos hrd]
    intro he
    simp at he
    rw [← he]
  | case4 pos h hdr hsz hrd hok ih =>
    rw [checksumScanGo, dif_pos h, if_neg hdr, if_neg hsz, if_neg hrd,
      if_pos hok]
    intro he
    simp at he
    rw [← he]
  | case5 pos h hdr hsz hrd hok ih =>
    rw [checksumScanGo, dif_pos h, if_neg hdr, if_neg hsz, if_neg hrd,
      if_neg hok]
    intro he
    simp at he
    rw [← he]
  | case6 pos h =>
    rw [checksumScanGo, dif_neg h]
    simp

/-- Consecutive scanned blocks are exactly `8 + payload + 8` bytes apart. -/
theorem checksumScan_chain {checksum : List Nat → Nat} {file : List Nat} :
    ∀ {pos : Nat}, List.Chain' (fun a b : Nat × Nat × BlockStatus =>
      b.1 = a.1 + 8 + a.2.1 + 8) (checksumScanGo checksum file pos) := by
  intro pos
  induction pos using checksumScanGo.induct checksum file with
  | case1 pos h hdr =>
    rw [checksumScanGo, dif_pos h, if_pos hdr]
    simp
  | case2 pos h hdr hsz =>
    rw [checksumScanGo, dif_pos h, if_neg hdr, if_pos hsz]
    simp
  | case3 pos h hdr hsz hrd =>
    rw [checksumScanGo, dif_pos h, if_neg hdr, if_neg hsz, if_pos hrd]
    simp
  | case4 pos h hdr hsz hrd hok ih =>
    rw [checksumScanGo, dif_pos h, if_neg hdr, if_neg hsz, if_neg hrd,
      if_pos hok]
    rw [List.chain'_cons']
    refine ⟨?_, ih⟩
    intro b hb
    have := checksumScan_head hb
    dsimp only
    omega
  | case5 pos h hdr hsz hrd hok ih =>
    rw [checksumScanGo, dif_pos h, if_neg hdr, if_neg hsz, if_neg hrd,
      if_neg hok]
    rw [List.chain'_cons']
    refine ⟨?_, ih⟩
    intro b hb
    have := checksumScan_head hb
    dsimp only
    omega
  | case6 pos h =>
    rw [checksumScanGo, dif_neg h]
    simp

/-- Every scanned block records its declared little-endian length, and is
classified `invalidSize` exactly when that length is zero or above the
100-MiB ceiling. -/
theorem checksumScan_size {checksum : List Nat → Nat} {file : List Nat} :
    ∀ {pos : Nat} {e : Nat × Nat × BlockStatus},
      e ∈ checksumScanGo checksum file pos →
      e.2.1 = decode_uint32_le file e.1 ∧
      (e.2.2 = BlockStatus.invalidSize ↔ (decode_uint32_le file e.1 = 0 ∨
        100 * 1024 * 1024 < decode_uint32_le file e.1)) := by
  intro pos
  induction pos using checksumScanGo.induct checksum file with
  | case1 pos h hdr =>
    rw [checksumScanGo, dif_pos h, if_pos hdr]
    intro e he
    simp at he
  | case2 pos h hdr hsz =>
    rw [checksumScanGo, dif_pos h, if_neg hdr, if_pos hsz]
    intro e he
    simp at he
    subst he
    exact ⟨rfl, by simpa using hsz⟩
  | case3 pos h hdr hsz hrd =>
    rw [checksumScanGo, dif_pos h, if_neg hdr, if_neg hsz, if_pos hrd]
    intro e he
    simp at he
    subst he
    refine ⟨rfl, ?_⟩
    constructor
    · intro hc
      exact absurd hc (by simp)
    · intro hc
      exact absurd hc hsz
  | case4 pos h hdr hsz hrd hok ih =>
    rw [checksumScanGo, dif_pos h, if_neg hdr, if_neg hsz, if_neg hrd,
      if_pos hok]
    intro e he
    rcases List.mem_cons.mp he with he | he
    · subst he
      refine ⟨rfl, ?_⟩
      constructor
      · intro hc
        exact absurd hc (by simp)
      · intro hc
        exact absurd (by simpa using hc) hsz
    · exact ih he
  | case5 pos h hdr hsz hrd hok ih =>
    rw [checksumScanGo, dif_pos h, if_neg hdr, if_neg hsz, if_neg hrd,
      if_neg hok]
    intro e he
    rcases List.mem_cons.mp he with he | he
    · subst he
      refine ⟨rfl, ?_⟩
      constructor
      · intro hc
        exact absurd hc (by simp)
      · intro hc
        exact absurd (by simpa using hc) hsz
    · exact ih he
  | case6 pos h =>
    rw [checksumScanGo, dif_neg h]
    intro e he
    simp at he

/-- Only the last scanned block can be `invalidSize` or `readError`: the scan
stops there; checksum mismatches never stop it. -/
theorem checksumScan_stop {checksum : List Nat → Nat} {file : List Nat} :
    ∀ {pos : Nat} {e : Nat × Nat × BlockStatus},
      e ∈ (checksumScanGo checksum file pos).dropLast →
      e.2.2 = BlockStatus.valid ∨ e.2.2 = BlockStatus.checksumMismatch := by
  intro pos
  induction pos using checksumScanGo.induct checksum file with
  | case1 pos h hdr =>
    rw [checksumScanGo, dif_pos h, if_pos hdr]
    intro e he
    simp at he
  | case2 pos h hdr hsz =>
    rw [checksumScanGo, dif_pos h, if_neg hdr, if_pos hsz]
    intro e he
    simp at he
  | case3 pos h hdr hsz hrd =>
    rw [checksumScanGo, dif_pos h, if_neg hdr, if_neg hsz, if_pos hrd]
    intro e he
    simp at he
  | case4 pos h hdr hsz hrd hok ih =>
    rw [checksumScanGo, dif_pos h, if_neg hdr, if_neg hsz, if_neg hrd,
      if_pos hok]
    intro e he
    cases hs : checksumScanGo checksum file
        (pos + 8 + decode_uint32_le file pos + 8) with
    | nil =>
      rw [hs] at he
      simp at he
    | cons x xs =>
      rw [hs] at he
      rw [List.dropLast_cons₂] at he
      rcases List.mem_cons.mp he with he | he
      · subst he
        left
        rfl
      · apply ih
        rw [hs]
        exact he
  | case5 pos h hdr hsz hrd hok ih =>
    rw [checksumScanGo, dif_pos h, if_neg hdr, if_neg hsz, if_neg hrd,
      if_neg hok]
    intro e he
    cases hs : checksumScanGo checksum file
        (pos + 8 + decode_uint32_le file pos + 8) with
    | nil =>
      rw [hs] at he
      simp at he
    | cons x xs =>
      rw [hs] at he
      rw [List.dropLast_cons₂] at he
      rcases List.mem_cons.mp he with he | he
      · subst he
        right
        rfl
      · apply ih
        rw [hs]
        exact he
  | case6 pos h =>
    rw [checksumScanGo, dif_neg h]
    intro e he
    simp at he

theorem length_filter_partition (l : List (Nat × Nat × BlockStatus)) :
    ((l.filter (fun e => e.2.2 = BlockStatus.valid)).length +
      (l.filter (fun e => ¬ e.2.2 = BlockStatus.valid)).length) = l.length := by
  induction l with
  | nil => simp
  | cons a l ih =>
    simp only [decide_not] at ih ⊢
    by_cases h : a.2.2 = BlockStatus.valid <;>
      simp [List.filter_cons, h] <;> omega

/-! ## Compositional view of the full dump -/

/-- The blocks the positional scan visits (position, declared length): the
stopping conditions are exactly those of the fused loops - short header,
insane size, short payload read - and do not involve the checksum at all. -/
def scanBlocks (file : List Nat) (pos : Nat) : List (Nat × Nat) :=
  if h : pos < file.length then
    if file.length < pos + 8 then []
    else
      if decode_uint32_le file pos = 0 ∨
          100 * 1024 * 1024 < decode_uint32_le file pos then []
      else
        if file.length < pos + 8 + decode_uint32_le file pos then []
        else
          (pos, decode_uint32_le file pos) ::
            scanBlocks file (pos + 8 + decode_uint32_le file pos + 8)
  else []
termination_by file.length - pos
decreasing_by all_goals omega

/-- Whether a scanned block's recomputed digest matches its stored one. -/
def blockChecksumOk (checksum : List Nat → Nat) (file : List Nat)
    (pl : Nat × Nat) : Bool :=
  checksum (sliceAt file (pl.1 + 8) pl.2) = decode_uint32_le file (pl.1 + 4)

/-- Specification-side full dump: every record decodable from every scanned
block, in scan order, tagged with its block index, its block's checksum
verdict and its value-log annotation. -/
def fullDumpSpecEntries (checksum : List Nat → Nat) (vfile : Option (List Nat))
    (file : List Nat) : List (Nat × Nat) → Nat → List FullDumpEntry
  | [], _ => []
  | pl :: rest, blkIdx =>
    (decodeBlockRecords (sliceAt file (pl.1 + 8) pl.2) 0 pl.2 0).map
      (fun r => { blkIdx := blkIdx, checksumOk := blockChecksumOk checksum file pl,
                  record := r, vlog := fullDumpAnnotate checksum vfile r }) ++
      fullDumpSpecEntries checksum vfile file rest (blkIdx + 1)

/-- Total number of records decodable from the scanned blocks. -/
def scanRecordsTotal (file : List Nat) (blocks : List (Nat × Nat)) : Nat :=
  (blocks.map (fun pl =>
    (decodeBlockRecords (sliceAt file (pl.1 + 8) pl.2) 0 pl.2 0).length)).sum

/-- The fused loop of `cmd_sstable_dump_full` equals the compositional
specification whenever the limit leaves headroom: entries are the per-block
decodes tagged with the per-block checksum verdict (mismatching blocks
included), and the error count is the number of mismatching scanned
blocks. -/
theorem fullDumpGo_spec : ∀ {checksum : List Nat → Nat}
    {vfile : Option (List Nat)} {file : List Nat} {pos limit count blkIdx : Nat},
    count + scanRecordsTotal file (scanBlocks file pos) < limit →
    fullDumpGo checksum vfile file pos limit count blkIdx =
      (fullDumpSpecEntries checksum vfile file (scanBlocks file pos) blkIdx,
        count + scanRecordsTotal file (scanBlocks file pos),
        ((scanBlocks file pos).filter
          (fun pl => ¬ blockChecksumOk checksum file pl = true)).length) := by
  intro checksum vfile file pos limit count blkIdx
  induction pos, limit, count, blkIdx using fullDumpGo.induct checksum vfile file with
  | case1 pos limit count blkIdx hcond h8 =>
    intro _
    rw [scanBlocks, dif_pos hcond.2, if_pos h8]
    rw [fullDumpGo, dif_pos hcond, if_pos h8]
    rw [fullDumpSpecEntries, scanRecordsTotal]
    simp
  | case2 pos limit count blkIdx hcond h8 hsz =>
    intro _
    rw [scanBlocks, dif_pos hcond.2, if_neg h8, if_pos hsz]
    rw [fullDumpGo, dif_pos hcond, if_neg h8, if_pos hsz]
    rw [fullDumpSpecEntries, scanRecordsTotal]
    simp
  | case3 pos limit count blkIdx hcond h8 hsz hrd =>
    intro _
    rw [scanBlocks, dif_pos hcond.2, if_neg h8, if_neg hsz, if_pos hrd]
    rw [fullDumpGo, dif_pos hcond, if_neg h8, if_neg hsz, if_pos hrd]
    rw [fullDumpSpecEntries, scanRecordsTotal]
    simp
  | case4 pos limit count blkIdx hcond h8 hsz hrd recs c2 hgo rest cfin errs hrest ih =>
    intro hroom
    have hscan : scanBlocks file pos = (pos, decode_uint32_le file pos) ::
        scanBlocks file (pos + 8 + decode_uint32_le file pos + 8) := by
      rw [scanBlocks, dif_pos hcond.2, if_neg h8, if_neg hsz, if_neg hrd]
    rw [hscan] at hroom ⊢
    rw [scanRecordsTotal, List.map_cons, List.sum_cons] at hroom ⊢
    rw [fullDumpGo, dif_pos hcond, if_neg h8, if_neg hsz, if_neg hrd]
    have hblock := @decodeBlockGo_eq_records
      (sliceAt file (pos + 8) (decode_uint32_le file pos)) 0
      (decode_uint32_le file pos) 0 limit count (by dsimp only at hroom; omega)
    rw [hgo] at hblock
    dsimp only at hroom
    have hrecs : recs = decodeBlockRecords
        (sliceAt file (pos + 8) (decode_uint32_le file pos)) 0
        (decode_uint32_le file pos) 0 := by
      have := congrArg Prod.fst hblock
      simpa using this
    have hc2 : c2 = count + (decodeBlockRecords
        (sliceAt file (pos + 8) (decode_uint32_le file pos)) 0
        (decode_uint32_le file pos) 0).length := by
      have := congrArg Prod.snd hblock
      simpa using this
    rw [hgo]
    dsimp only
    have hihroom : c2 + scanRecordsTotal file
        (scanBlocks file (pos + 8 + decode_uint32_le file pos + 8)) < limit := by
      rw [hc2]
      rw [scanRecordsTotal]
      omega
    have hihres := ih hihroom
    rw [hrest] at hihres
    rw [hrest]
    dsimp only
    rw [fullDumpSpecEntries]
    have h1 : rest = fullDumpSpecEntries checksum vfile file
        (scanBlocks file (pos + 8 + decode_uint32_le file pos + 8))
        (blkIdx + 1) := by
      have := congrArg (fun t => t.1) hihres
      simpa using this
    have h2 : cfin = c2 + scanRecordsTotal file
        (scanBlocks file (pos + 8 + decode_uint32_le file pos + 8)) := by
      have := congrArg (fun t => t.2.1) hihres
      simpa using this
    have h3 : errs = ((scanBlocks file
        (pos + 8 + decode_uint32_le file pos + 8)).filter
        (fun pl => ¬ blockChecksumOk checksum file pl = true)).length := by
      have := congrArg (fun t => t.2.2) hihres
      simpa using this
    rw [List.filter_cons]
    refine congrArg₂ Prod.mk ?_ (congrArg₂ Prod.mk ?_ ?_)
    · rw [h1, hrecs]
      rfl
    · rw [h2, hc2, scanRecordsTotal]
      omega
    · rw [h3]
      cases hok : blockChecksumOk checksum file
          (pos, decode_uint32_le file pos) with
      | true =>
        have hok2 : checksum (sliceAt file (pos + 8)
            (decode_uint32_le file pos)) = decode_uint32_le file (pos + 4) := by
          rw [blockChecksumOk] at hok
          dsimp only at hok
          exact of_decide_eq_true hok
        rw [if_pos hok2]
        simp [hok]
      | false =>
        have hok2 : ¬ (checksum (sliceAt file (pos + 8)
            (decode_uint32_le file pos)) = decode_uint32_le file (pos + 4)) := by
          rw [blockChecksumOk] at hok
          dsimp only at hok
          exact of_decide_eq_false hok
        rw [if_neg hok2]
        simp [hok]
        omega
  | case5 pos limit count blkIdx hcond =>
    intro hroom
    have hpos : ¬ pos < file.length := by
      by_cases hp : pos < file.length
      · exfalso
        exact hcond ⟨by omega, hp⟩
      · exact hp
    rw [scanBlocks, dif_neg hpos] at hroom ⊢
    rw [fullDumpGo, dif_neg hcond]
    rw [fullDumpSpecEntries, scanRecordsTotal]
    simp

/-! ## Popcount lemmas -/

theorem popcountNat_two_pow_sub_one : ∀ k : Nat, popcountNat (2 ^ k - 1) = k := by
  intro k
  induction k with
  | zero => rw [popcountNat]; rfl
  | succ k ih =>
    have h2 : 2 ^ (k + 1) = 2 * 2 ^ k := by rw [pow_succ]; ring
    have hpos : 0 < 2 ^ k := Nat.two_pow_pos k
    rw [popcountNat, if_neg (by omega)]
    have hmod : (2 ^ (k + 1) - 1) % 2 = 1 := by omega
    have hdiv : (2 ^ (k + 1) - 1) / 2 = 2 ^ k - 1 := by omega
    rw [hmod, hdiv, ih]
    omega

/-! ## Claim theorems -/

/-- C10: value-log resolution is independent of the caller's expected value
size - `read_vlog_value` returns the identical outcome for any two
`value_size` arguments, and on success the returned payload is exactly the
block's declared payload (its length the declared header length), never the
caller's expected size. -/
theorem claim10_vlog_size_independent :
    (∀ (checksum : List Nat → Nat) (vfile : Option (List Nat))
        (off vs1 vs2 : Nat),
      read_vlog_value checksum vfile off vs1 =
        read_vlog_value checksum vfile off vs2) ∧
    (∀ (checksum : List Nat → Nat) (f : List Nat) (off vs : Nat) (p : List Nat),
      read_vlog_value checksum (some f) off vs = VlogResult.success p →
      p = sliceAt f (off + 8) (decode_uint32_le f off) ∧
      p.length = decode_uint32_le f off) := by
  constructor
  · intro checksum vfile off vs1 vs2
    rfl
  · intro checksum f off vs p h
    rw [read_vlog_value] at h
    split at h
    · exact absurd h (by simp)
    · split at h
      · exact absurd h (by simp)
      · split at h
        · exact absurd h (by simp)
        · split at h
          · exact absurd h (by simp)
          · rename_i h8 hsz hrd hck
            simp only [VlogResult.success.injEq] at h
            subst h
            refine ⟨rfl, ?_⟩
            rw [sliceAt, List.length_take, List.length_drop]
            omega

/-- Closed witness for C10 at a concrete companion file. -/
theorem claim10_witness :
    read_vlog_value (fun _ => 0) (some [1, 0, 0, 0, 0, 0, 0, 0, 7]) 0 5 =
      read_vlog_value (fun _ => 0) (some [1, 0, 0, 0, 0, 0, 0, 0, 7]) 0 99 ∧
    ([7] : List Nat) = sliceAt [1, 0, 0, 0, 0, 0, 0, 0, 7] (0 + 8)
      (decode_uint32_le [1, 0, 0, 0, 0, 0, 0, 0, 7] 0) ∧
    ([7] : List Nat).length = decode_uint32_le [1, 0, 0, 0, 0, 0, 0, 0, 7] 0 :=
  ⟨claim10_vlog_size_independent.1 (fun _ => 0)
      (some [1, 0, 0, 0, 0, 0, 0, 0, 7]) 0 5 99,
    claim10_vlog_size_independent.2 (fun _ => 0) [1, 0, 0, 0, 0, 0, 0, 0, 7]
      0 5 [7] (by rfl)⟩

/-- C5: `read_vlog_value` distinguishes exactly three outcomes - structural
or read failure (unopenable file, short header or payload read, zero or
over-100-MiB declared length), checksum failure, and success carrying the
payload - and the full-dump caller renders them distinctly (`NO_VLOG_FILE`
vs `READ_ERR` vs `CHECKSUM_ERR` vs the retrieved value). -/
theorem claim5_vlog_outcomes :
    (∀ (checksum : List Nat → Nat) (off vs : Nat),
      read_vlog_value checksum none off vs = VlogResult.structuralFailure) ∧
    (∀ (checksum : List Nat → Nat) (f : List Nat) (off vs : Nat),
      (f.length < off + 8 ∨ decode_uint32_le f off = 0 ∨
        100 * 1024 * 1024 < decode_uint32_le f off ∨
        f.length < off + 8 + decode_uint32_le f off) →
      read_vlog_value checksum (some f) off vs =
        VlogResult.structuralFailure) ∧
    (∀ (checksum : List Nat → Nat) (f : List Nat) (off vs : Nat),
      ¬ f.length < off + 8 →
      ¬ (decode_uint32_le f off = 0 ∨
        100 * 1024 * 1024 < decode_uint32_le f off) →
      ¬ f.length < off + 8 + decode_uint32_le f off →
      checksum (sliceAt f (off + 8) (decode_uint32_le f off)) ≠
        decode_uint32_le f (off + 4) →
      read_vlog_value checksum (some f) off vs = VlogResult.checksumFailure) ∧
    (∀ (checksum : List Nat → Nat) (f : List Nat) (off vs : Nat),
      ¬ f.length < off + 8 →
      ¬ (decode_uint32_le f off = 0 ∨
        100 * 1024 * 1024 < decode_uint32_le f off) →
      ¬ f.length < off + 8 + decode_uint32_le f off →
      checksum (sliceAt f (off + 8) (decode_uint32_le f off)) =
        decode_uint32_le f (off + 4) →
      read_vlog_value checksum (some f) off vs =
        VlogResult.success (sliceAt f (off + 8) (decode_uint32_le f off))) ∧
    (∀ (checksum : List Nat → Nat) (r : DecodedRecord),
      r.flags &&& TDB_KV_FLAG_HAS_VLOG ≠ 0 →
      fullDumpAnnotate checksum none r = VlogAnnotation.noVlogFile) ∧
    (∀ (checksum : List Nat → Nat) (f : List Nat) (r : DecodedRecord),
      r.flags &&& TDB_KV_FLAG_HAS_VLOG ≠ 0 → 0 < r.valueSize →
      read_vlog_value checksum (some f) r.vlogOffset r.valueSize =
        VlogResult.structuralFailure →
      fullDumpAnnotate checksum (some f) r = VlogAnnotation.readErr) ∧
    (∀ (checksum : List Nat → Nat) (f : List Nat) (r : DecodedRecord),
      r.flags &&& TDB_KV_FLAG_HAS_VLOG ≠ 0 → 0 < r.valueSize →
      read_vlog_value checksum (some f) r.vlogOffset r.valueSize =
        VlogResult.checksumFailure →
      fullDumpAnnotate checksum (some f) r = VlogAnnotation.checksumErr) ∧
    (∀ (checksum : List Nat → Nat) (f : List Nat) (r : DecodedRecord)
        (p : List Nat),
      r.flags &&& TDB_KV_FLAG_HAS_VLOG ≠ 0 → 0 < r.valueSize →
      read_vlog_value checksum (some f) r.vlogOffset r.valueSize =
        VlogResult.success p →
      fullDumpAnnotate checksum (some f) r = VlogAnnotation.retrieved p) := by
  refine ⟨?_, ?_, ?_, ?_, ?_, ?_, ?_, ?_⟩
  · intro checksum off vs
    rfl
  · intro checksum f off vs hcase
    rw [read_vlog_value]
    rcases hcase with h | h | h | h
    · rw [if_pos h]
    · by_cases h8 : f.length < off + 8
      · rw [if_pos h8]
      · rw [if_neg h8, if_pos (Or.inl h)]
    · by_cases h8 : f.length < off + 8
      · rw [if_pos h8]
      · rw [if_neg h8, if_pos (Or.inr h)]
    · by_cases h8 : f.length < off + 8
      · rw [if_pos h8]
      · by_cases hsz : decode_uint32_le f off = 0 ∨
            100 * 1024 * 1024 < decode_uint32_le f off
        · rw [if_neg h8, if_pos hsz]
        · rw [if_neg h8, if_neg hsz, if_pos h]
  · intro checksum f off vs h8 hsz hrd hck
    rw [read_vlog_value, if_neg h8, if_neg hsz, if_neg hrd, if_pos hck]
  · intro checksum f off vs h8 hsz hrd hck
    rw [read_vlog_value, if_neg h8, if_neg hsz, if_neg hrd,
      if_neg (by simpa using hck)]
  · intro checksum r hflag
    rw [fullDumpAnnotate, if_pos hflag]
  · intro checksum f r hflag hvs hres
    rw [fullDumpAnnotate, if_pos hflag]
    rw [if_pos hvs, hres]
  · intro checksum f r hflag hvs hres
    rw [fullDumpAnnotate, if_pos hflag]
    rw [if_pos hvs, hres]
  · intro checksum f r p hflag hvs hres
    rw [fullDumpAnnotate, if_pos hflag]
    rw [if_pos hvs, hres]

/-- Closed witness for C5 at concrete companion files and records. -/
theorem claim5_witness :
    read_vlog_value (fun _ => 0) none 0 1 = VlogResult.structuralFailure ∧
    read_vlog_value (fun _ => 0) (some [0]) 0 1 =
      VlogResult.structuralFailure ∧
    read_vlog_value (fun _ => 0) (some [1, 0, 0, 0, 1, 0, 0, 0, 7]) 0 1 =
      VlogResult.checksumFailure ∧
    read_vlog_value (fun _ => 0) (some [1, 0, 0, 0, 0, 0, 0, 0, 7]) 0 1 =
      VlogResult.success
        (sliceAt [1, 0, 0, 0, 0, 0, 0, 0, 7] (0 + 8)
          (decode_uint32_le [1, 0, 0, 0, 0, 0, 0, 0, 7] 0)) ∧
    fullDumpAnnotate (fun _ => 0) none ⟨4, 0, 1, 0, 0, 0, [], none⟩ =
      VlogAnnotation.noVlogFile ∧
    fullDumpAnnotate (fun _ => 0) (some [0]) ⟨4, 0, 1, 0, 0, 0, [], none⟩ =
      VlogAnnotation.readErr ∧
    fullDumpAnnotate (fun _ => 0) (some [1, 0, 0, 0, 1, 0, 0, 0, 7])
        ⟨4, 0, 1, 0, 0, 0, [], none⟩ = VlogAnnotation.checksumErr ∧
    fullDumpAnnotate (fun _ => 0) (some [1, 0, 0, 0, 0, 0, 0, 0, 7])
        ⟨4, 0, 1, 0, 0, 0, [], none⟩ = VlogAnnotation.retrieved [7] :=
  ⟨claim5_vlog_outcomes.1 (fun _ => 0) 0 1,
    claim5_vlog_outcomes.2.1 (fun _ => 0) [0] 0 1 (Or.inl (by decide)),
    claim5_vlog_outcomes.2.2.1 (fun _ => 0) [1, 0, 0, 0, 1, 0, 0, 0, 7] 0 1
      (by decide) (by decide) (by decide) (by decide),
    claim5_vlog_outcomes.2.2.2.1 (fun _ => 0) [1, 0, 0, 0, 0, 0, 0, 0, 7] 0 1
      (by decide) (by decide) (by decide) (by rfl),
    claim5_vlog_outcomes.2.2.2.2.1 (fun _ => 0) ⟨4, 0, 1, 0, 0, 0, [], none⟩
      (by decide),
    claim5_vlog_outcomes.2.2.2.2.2.1 (fun _ => 0) [0]
      ⟨4, 0, 1, 0, 0, 0, [], none⟩ (by decide) (by decide) (by rfl),
    claim5_vlog_outcomes.2.2.2.2.2.2.1 (fun _ => 0) [1, 0, 0, 0, 1, 0, 0, 0, 7]
      ⟨4, 0, 1, 0, 0, 0, [], none⟩ (by decide) (by decide) (by rfl),
    claim5_vlog_outcomes.2.2.2.2.2.2.2 (fun _ => 0) [1, 0, 0, 0, 0, 0, 0, 0, 7]
      ⟨4, 0, 1, 0, 0, 0, [], none⟩ [7] (by decide) (by decide) (by rfl)⟩

/-- C9: every walker with a result-count ceiling defaults it to 1000, emits
at most that many entries on any input, and a large file changes only the
warning flag, never the limit. -/
theorem claim9_limits :
    effectiveLimit none = 1000 ∧
    ADMINTOOL_DEFAULT_DUMP_LIMIT = 1000 ∧
    (∀ (blocks : List (List Nat)) (arg : Option Int),
      (sstableDumpEntries blocks (effectiveLimit arg)).length ≤
        effectiveLimit arg) ∧
    (∀ (blocks : List (List Nat)) (arg : Option Int),
      (walDumpEntries blocks (effectiveLimit arg)).length ≤
        effectiveLimit arg) ∧
    (∀ (checksum : List Nat → Nat) (vfile : Option (List Nat))
        (file : List Nat) (arg : Option Int),
      (cmd_sstable_dump_full checksum vfile file
        (effectiveLimit arg)).1.length ≤ effectiveLimit arg) ∧
    (∀ (fileSize : Nat) (arg : Option Int),
      (dumpLimitSetup fileSize arg).1 = effectiveLimit arg) ∧
    (∀ (fileSize : Nat) (arg : Option Int),
      ((dumpLimitSetup fileSize arg).2 = true ↔
        ADMINTOOL_LARGE_FILE_THRESHOLD < fileSize)) := by
  refine ⟨rfl, rfl, ?_, ?_, ?_, ?_, ?_⟩
  · intro blocks arg
    exact sstableDumpEntries_length_le blocks (effectiveLimit arg)
  · intro blocks arg
    exact walDumpEntries_length_le blocks (effectiveLimit arg)
  · intro checksum vfile file arg
    rw [cmd_sstable_dump_full]
    have := @fullDumpGo_length_le checksum vfile file 8 (effectiveLimit arg)
      0 0 (by omega)
    omega
  · intro fileSize arg
    rfl
  · intro fileSize arg
    rw [dumpLimitSetup]
    simp

theorem getD_replicate' {n i d a : Nat} (h : i < n) :
    (List.replicate n a).getD i d = a := by
  rw [List.getD_eq_getElem?_getD, List.getElem?_replicate, if_pos h]
  rfl

theorem foldl_add_eq_sum (g : Nat → Nat) :
    ∀ (n acc : Nat), (List.range n).foldl (fun a i => a + g i) acc =
      acc + ((List.range n).map g).sum := by
  intro n
  induction n with
  | zero => intro acc; simp
  | succ n ih =>
    intro acc
    rw [List.range_succ, List.foldl_append, List.map_append]
    simp [ih]
    ring

theorem popcountNat_one : popcountNat 1 = 1 := by
  rw [popcountNat, if_neg (by omega)]
  rw [popcountNat]
  rfl

/-- C7: filter inspection derives `fill_ratio = bits_set / m` and
`estimated_fpr = fill_ratio ^ h`; a filter with `m = 1000`, 500 bits set and
`h = 4` reports fill ratio 1/2 (50.0%) and estimated FPR 1/16 (0.0625); the
high-fill warning fires exactly when the ratio strictly exceeds 1/2, so a
ratio of exactly 1/2 does not trigger it. -/
theorem claim7_bloom_stats :
    (∀ bf : BloomFilter, bf.m = 1000 → bf.h = 4 → bloom_bits_set bf = 500 →
      bloom_fill_ratio bf = 1 / 2 ∧ bloom_estimated_fpr bf = 1 / 16 ∧
      bloom_high_fill_warning bf = false) ∧
    (∀ bf : BloomFilter,
      bloom_high_fill_warning bf = true ↔ 1 / 2 < bloom_fill_ratio bf) := by
  constructor
  · intro bf hm hh hbits
    have hfill : bloom_fill_ratio bf = 1 / 2 := by
      rw [bloom_fill_ratio, hbits, hm]
      norm_num
    refine ⟨hfill, ?_, ?_⟩
    · rw [bloom_estimated_fpr, hfill, hh]
      norm_num
    · rw [bloom_high_fill_warning, hfill]
      norm_num
  · intro bf
    rw [bloom_high_fill_warning]
    exact decide_eq_true_iff

set_option maxRecDepth 2000 in
/-- Closed witness for C7: a concrete filter with 1000 bits, 500 of them
set, and 4 hash rounds. -/
theorem claim7_witness :
    bloom_fill_ratio ⟨1000, 4, 500, List.replicate 500 1⟩ = 1 / 2 ∧
    bloom_estimated_fpr ⟨1000, 4, 500, List.replicate 500 1⟩ = 1 / 16 ∧
    bloom_high_fill_warning ⟨1000, 4, 500, List.replicate 500 1⟩ = false := by
  have hbits : bloom_bits_set ⟨1000, 4, 500, List.replicate 500 1⟩ = 500 := by
    rw [bloom_bits_set]
    dsimp only
    rw [foldl_add_eq_sum]
    have hmap : (List.range 500).map
        (fun i => popcountNat ((List.replicate 500 1).getD i 0 % 2 ^ 64)) =
        (List.range 500).map (fun _ => 1) := by
      apply List.map_congr_left
      intro i hi
      rw [getD_replicate' (List.mem_range.mp hi)]
      rw [Nat.mod_eq_of_lt (by norm_num)]
      exact popcountNat_one
    rw [hmap]
    simp
  exact claim7_bloom_stats.1 ⟨1000, 4, 500, List.replicate 500 1⟩ rfl rfl hbits

/-- A block that `cmd_wal_verify` classifies as a valid entry is not the
empty block that the loop skips (src/main.c:2203-2206 vs 2208). -/
theorem walEntryValid_not_short {b : List Nat} {s : Nat}
    (h : walEntryValid b = some s) : ¬ b.length < 1 := by
  intro hlt
  rw [walEntryValid, if_pos hlt] at h
  exact absurd h (by simp)

/-- C1 counterexample: a WAL whose cursor yields E1 (valid, pos 8), E2
(valid, pos 28), E3 (corrupt: lone continuation byte, pos 48), E4 (valid,
pos 66).  The report counts 3 valid / 1 corrupted as claimed, but the
recovery boundary `last_valid_pos` is 66 - the start of E4's block, a valid
entry AFTER the break - not 28, the start of E2's block: src/main.c:2273-2275
refreshes `last_valid_pos` on every valid entry regardless of earlier
corruption. -/
theorem claim1_counterexample :
    cmd_wal_verify
        [(8, [0, 0, 0, 1]), (28, [0, 0, 0, 2]), (48, [0, 128]),
          (66, [0, 0, 0, 4])] =
      { valid := 3, corrupted := 1, minSeq := 1, maxSeq := 4,
        lastValidPos := 66 } ∧
    (cmd_wal_verify
        [(8, [0, 0, 0, 1]), (28, [0, 0, 0, 2]), (48, [0, 128]),
          (66, [0, 0, 0, 4])]).lastValidPos ≠ 28 ∧
    cmd_wal_verify_ok
        [(8, [0, 0, 0, 1]), (28, [0, 0, 0, 2]), (48, [0, 128]),
          (66, [0, 0, 0, 4])] = false := by
  have e : cmd_wal_verify
      [(8, [0, 0, 0, 1]), (28, [0, 0, 0, 2]), (48, [0, 128]),
        (66, [0, 0, 0, 4])] =
      { valid := 3, corrupted := 1, minSeq := 1, maxSeq := 4,
        lastValidPos := 66 } := by
    simp [cmd_wal_verify, walVerifyGo, walEntryValid, decode_varint_safe,
      varintGo, byteAt, TDB_KV_FLAG_HAS_TTL]
  refine ⟨e, ?_, ?_⟩
  · rw [e]; decide
  · rw [cmd_wal_verify_ok, e]; decide

/-- One step of the `cmd_wal_verify` loop on a block holding a valid entry
(src/main.c:2251-2275). -/
theorem walVerifyGo_cons_valid (pos : Nat) (b : List Nat)
    (bs : List (Nat × List Nat)) (acc : WalVerifyResult) (s : Nat)
    (h : walEntryValid b = some s) :
    walVerifyGo ((pos, b) :: bs) acc =
      walVerifyGo bs
        ⟨acc.valid + 1, acc.corrupted,
          if s < acc.minSeq then s else acc.minSeq,
          if acc.maxSeq < s then s else acc.maxSeq, pos⟩ := by
  simp only [walVerifyGo]
  rw [if_neg (walEntryValid_not_short h), h]

/-- One step of the `cmd_wal_verify` loop on a non-empty block holding a
corrupt entry (src/main.c:2276-2281). -/
theorem walVerifyGo_cons_corrupt (pos : Nat) (b : List Nat)
    (bs : List (Nat × List Nat)) (acc : WalVerifyResult)
    (h : walEntryValid b = none) (hl : ¬ b.length < 1) :
    walVerifyGo ((pos, b) :: bs) acc =
      walVerifyGo bs { acc with corrupted := acc.corrupted + 1 } := by
  simp only [walVerifyGo]
  rw [if_neg hl, h]

/-- C1 amended: over a log of four blocks E1 (valid), E2 (valid), E3
(corrupt but non-empty), E4 (valid), `cmd_wal_verify` reports 3 valid and
1 corrupted entries and a `CORRUPTED` status, and the recovery-boundary
offset `last_valid_pos` equals the start offset of E4's block - the most
recent valid block of the whole scan - so a valid entry after a detected
corrupt entry DOES extend the reported boundary. -/
theorem claim1_amended (p1 p2 p3 p4 s1 s2 s4 : Nat) (b1 b2 b3 b4 : List Nat)
    (h1 : walEntryValid b1 = some s1) (h2 : walEntryValid b2 = some s2)
    (h3 : walEntryValid b3 = none) (h3len : ¬ b3.length < 1)
    (h4 : walEntryValid b4 = some s4) :
    (cmd_wal_verify [(p1, b1), (p2, b2), (p3, b3), (p4, b4)]).valid = 3 ∧
    (cmd_wal_verify [(p1, b1), (p2, b2), (p3, b3), (p4, b4)]).corrupted = 1 ∧
    (cmd_wal_verify [(p1, b1), (p2, b2), (p3, b3), (p4, b4)]).lastValidPos =
      p4 ∧
    cmd_wal_verify_ok [(p1, b1), (p2, b2), (p3, b3), (p4, b4)] = false := by
  have e : cmd_wal_verify [(p1, b1), (p2, b2), (p3, b3), (p4, b4)] =
      ⟨3, 1,
        if s4 < (if s2 < (if s1 < 2 ^ 64 - 1 then s1 else 2 ^ 64 - 1) then s2
            else if s1 < 2 ^ 64 - 1 then s1 else 2 ^ 64 - 1) then s4
          else if s2 < (if s1 < 2 ^ 64 - 1 then s1 else 2 ^ 64 - 1) then s2
            else if s1 < 2 ^ 64 - 1 then s1 else 2 ^ 64 - 1,
        if (if (if 0 < s1 then s1 else 0) < s2 then s2
              else if 0 < s1 then s1 else 0) < s4 then s4
          else if (if 0 < s1 then s1 else 0) < s2 then s2
            else if 0 < s1 then s1 else 0,
        p4⟩ := by
    rw [cmd_wal_verify, walVerifyGo_cons_valid p1 b1 _ _ s1 h1,
      walVerifyGo_cons_valid p2 b2 _ _ s2 h2,
      walVerifyGo_cons_corrupt p3 b3 _ _ h3 h3len,
      walVerifyGo_cons_valid p4 b4 _ _ s4 h4]
    rw [walVerifyGo]
  rw [cmd_wal_verify_ok, e]
  exact ⟨rfl, rfl, rfl, rfl⟩

/-- Closed witness for the amended C1 at the counterexample's concrete
blocks. -/
theorem claim1_witness :
    (cmd_wal_verify
        [(9, [0, 0, 0, 1]), (29, [0, 0, 0, 2]), (49, [0, 128]),
          (67, [0, 0, 0, 4])]).valid = 3 ∧
    (cmd_wal_verify
        [(9, [0, 0, 0, 1]), (29, [0, 0, 0, 2]), (49, [0, 128]),
          (67, [0, 0, 0, 4])]).corrupted = 1 ∧
    (cmd_wal_verify
        [(9, [0, 0, 0, 1]), (29, [0, 0, 0, 2]), (49, [0, 128]),
          (67, [0, 0, 0, 4])]).lastValidPos = 67 ∧
    cmd_wal_verify_ok
        [(9, [0, 0, 0, 1]), (29, [0, 0, 0, 2]), (49, [0, 128]),
          (67, [0, 0, 0, 4])] = false :=
  claim1_amended 9 29 49 67 1 2 4 [0, 0, 0, 1] [0, 0, 0, 2] [0, 128]
    [0, 0, 0, 4]
    (by simp [walEntryValid, decode_varint_safe, varintGo, byteAt,
      TDB_KV_FLAG_HAS_TTL])
    (by simp [walEntryValid, decode_varint_safe, varintGo, byteAt,
      TDB_KV_FLAG_HAS_TTL])
    (by simp [walEntryValid, decode_varint_safe, varintGo, byteAt])
    (by decide)
    (by simp [walEntryValid, decode_varint_safe, varintGo, byteAt,
      TDB_KV_FLAG_HAS_TTL])

/-- The table-walker TTL step with `HAS_TTL` set and fewer than 8 remaining
bytes is a decode failure (src/main.c:1057-1064). -/
theorem decodeAfterSeq_ttl_short {data : List Nat}
    {off rem flags ks vs seq : Nat} (hflag : flags &&& TDB_KV_FLAG_HAS_TTL ≠ 0)
    (hrem : rem < 8) : decodeAfterSeq data off rem flags ks vs seq = none := by
  rw [decodeAfterSeq, if_pos hflag, if_pos hrem]

/-- C3 counterexample: the 4-byte block `[2, 0, 0, 5]` - flags byte 2
(`HAS_TTL` set), key size 0, value size 0, sequence 5 and zero bytes left
at the TTL step.  The table-record decoder fails on it as claimed, but
`cmd_wal_dump` does not: src/main.c:2097-2104 skips the short TTL field and
still emits the record, displaying `ttl = 0`. -/
theorem claim3_counterexample :
    byteAt [2, 0, 0, 5] 0 &&& TDB_KV_FLAG_HAS_TTL ≠ 0 ∧
    decodeRecordAt [2, 0, 0, 5] 0 4 0 = none ∧
    walEntryValid [2, 0, 0, 5] = none ∧
    walDumpEntries [[2, 0, 0, 5]] 1000 = [⟨2, 0, 0, 5, 0, [], none⟩] := by
  refine ⟨by decide, ?_, ?_, ?_⟩
  · simp [decodeRecordAt, decodeAfterSeq, decode_varint_safe, varintGo,
      byteAt, TDB_KV_FLAG_HAS_TTL, TDB_KV_FLAG_DELTA_SEQ]
  · simp [walEntryValid, decode_varint_safe, varintGo, byteAt,
      TDB_KV_FLAG_HAS_TTL]
  · simp [walDumpEntries, walDumpGo, walDumpEntry, walDumpKey,
      decode_varint_safe, varintGo, byteAt, TDB_KV_FLAG_HAS_TTL, sliceAt]

/-- C3 amended: at a record whose flags byte has `HAS_TTL` set and whose
window holds fewer than 8 bytes at the TTL step, the table walkers
(src/main.c:1057-1064) and the WAL integrity scanner (src/main.c:2242-2249)
fail the record - it is not emitted or counted and the block's decode loop
returns nothing more - but `cmd_wal_dump` (src/main.c:2097-2104) skips the
TTL field instead and still emits the record with `ttl = 0`. -/
theorem claim3_amended :
    (∀ (data : List Nat) (off rem flags ks vs seq : Nat),
      flags &&& TDB_KV_FLAG_HAS_TTL ≠ 0 → rem < 8 →
      decodeAfterSeq data off rem flags ks vs seq = none) ∧
    (∀ (b : List Nat) (n1 ks n2 vs n3 sq : Nat),
      ¬ b.length < 1 →
      byteAt b 0 &&& TDB_KV_FLAG_HAS_TTL ≠ 0 →
      decode_varint_safe b 1 (b.length - 1) = some (n1, ks) →
      ¬ b.length - 1 < n1 →
      decode_varint_safe b (1 + n1) (b.length - 1 - n1) = some (n2, vs) →
      ¬ b.length - 1 - n1 < n2 →
      decode_varint_safe b (1 + n1 + n2) (b.length - 1 - n1 - n2) =
        some (n3, sq) →
      ¬ b.length - 1 - n1 - n2 < n3 →
      b.length - 1 - n1 - n2 - n3 < 8 →
      (∀ prevSeq, decodeRecordAt b 0 b.length prevSeq = none) ∧
      (∀ prevSeq limit count, count < limit →
        decodeBlockGo b 0 b.length prevSeq limit count = ([], count)) ∧
      walEntryValid b = none ∧
      walDumpEntry b =
        walDumpKey b (1 + n1 + n2 + n3) (b.length - 1 - n1 - n2 - n3)
          (byteAt b 0) ks vs sq 0 ∧
      (ks ≤ b.length - 1 - n1 - n2 - n3 →
        ∃ e, walDumpEntry b = some e ∧ e.ttl = 0 ∧ e.seq = sq ∧
          e.flags = byteAt b 0)) := by
  refine ⟨fun data off rem flags ks vs seq hflag hrem =>
    decodeAfterSeq_ttl_short hflag hrem, ?_⟩
  intro b n1 ks n2 vs n3 sq hlen hflag hv1 hn1 hv2 hn2 hv3 hn3 hshort
  have hrec : ∀ prevSeq, decodeRecordAt b 0 b.length prevSeq = none := by
    intro prevSeq
    rw [decodeRecordAt, if_neg hlen]
    simp only [Nat.zero_add]
    rw [hv1]; dsimp only
    rw [if_neg hn1, hv2]; dsimp only
    rw [if_neg hn2, hv3]; dsimp only
    rw [if_neg hn3]
    exact decodeAfterSeq_ttl_short hflag hshort
  have hdump : walDumpEntry b =
      walDumpKey b (1 + n1 + n2 + n3) (b.length - 1 - n1 - n2 - n3)
        (byteAt b 0) ks vs sq 0 := by
    rw [walDumpEntry, if_neg hlen, hv1]; dsimp only
    rw [if_neg hn1, hv2]; dsimp only
    rw [if_neg hn2, hv3]; dsimp only
    rw [if_neg hn3, if_neg (by omega)]
  refine ⟨hrec, ?_, ?_, hdump, ?_⟩
  · intro prevSeq limit count hcl
    exact decodeBlockGo_none ⟨by omega, hcl⟩ (hrec prevSeq)
  · rw [walEntryValid, if_neg hlen, hv1]; dsimp only
    rw [if_neg hn1, hv2]; dsimp only
    rw [if_neg hn2, hv3]; dsimp only
    rw [if_neg hn3, if_pos hflag, if_pos hshort]
  · intro hks
    rw [hdump, walDumpKey, if_neg (by omega)]
    exact ⟨_, rfl, rfl, rfl, rfl⟩

/-- Closed witness for the amended C3 at the block `[2, 0, 0, 5]`. -/
theorem claim3_witness :
    decodeRecordAt [2, 0, 0, 5] 0 ([2, 0, 0, 5] : List Nat).length 7 = none ∧
    decodeBlockGo [2, 0, 0, 5] 0 ([2, 0, 0, 5] : List Nat).length 7 1000 0 =
      ([], 0) ∧
    walEntryValid [2, 0, 0, 5] = none ∧
    ∃ e, walDumpEntry [2, 0, 0, 5] = some e ∧ e.ttl = 0 ∧ e.seq = 5 ∧
      e.flags = byteAt [2, 0, 0, 5] 0 := by
  have h := claim3_amended.2 [2, 0, 0, 5] 1 0 1 0 1 5 (by decide) (by decide)
    (by simp [decode_varint_safe, varintGo, byteAt])
    (by decide)
    (by simp [decode_varint_safe, varintGo, byteAt])
    (by decide)
    (by simp [decode_varint_safe, varintGo, byteAt])
    (by decide) (by decide)
  exact ⟨h.1 7, h.2.1 7 1000 0 (by decide), h.2.2.1, h.2.2.2.2 (by decide)⟩

/-- C2: every decode step is window-bounded.  `decode_varint_safe` consumes
between 1 and `min max_bytes 10` bytes on success, its result depends only
on the `min max_bytes 10` bytes of its window (it never reads past
`max_bytes`), it fails exactly when the budget or the 10-byte cap is
exhausted before a byte with a clear continuation bit; and a record payload
truncated at any byte offset strictly inside the record makes the record
decoder fail without reading outside the window, while the surrounding
block walk simply proceeds to the next block with the entry count
unchanged. -/
theorem claim2_bounded_decode :
    (∀ (data : List Nat) (off max_bytes n v : Nat),
      decode_varint_safe data off max_bytes = some (n, v) →
      1 ≤ n ∧ n ≤ min max_bytes 10) ∧
    (∀ (d₁ d₂ : List Nat) (off₁ off₂ max_bytes : Nat),
      (∀ j, j < min max_bytes 10 →
        byteAt d₁ (off₁ + j) = byteAt d₂ (off₂ + j)) →
      decode_varint_safe d₁ off₁ max_bytes =
        decode_varint_safe d₂ off₂ max_bytes) ∧
    (∀ (data : List Nat) (off max_bytes : Nat),
      decode_varint_safe data off max_bytes = none ↔
        ∀ j, j < min max_bytes 10 → 128 ≤ byteAt data (off + j)) ∧
    (∀ (r : RecordSpec), r.WF → ∀ k, k < (encodeRecord r).length →
      ∀ prevSeq, decodeRecordAt ((encodeRecord r).take k) 0 k prevSeq =
        none) ∧
    (∀ (r : RecordSpec), r.WF → ∀ k, k < (encodeRecord r).length →
      ∀ (bs : List (List Nat)) (limit count blkIdx : Nat),
      ¬ ((encodeRecord r).take k).length < 4 → count < limit →
      sstableDumpGo ((encodeRecord r).take k :: bs) limit count blkIdx =
        sstableDumpGo bs limit count (blkIdx + 1)) := by
  refine ⟨fun data off max_bytes n v h => decode_varint_safe_some_le h,
    fun d₁ d₂ off₁ off₂ max_bytes h => decode_varint_safe_frame h,
    fun data off max_bytes => decode_varint_safe_none_iff,
    fun r hwf => decodeRecordAt_truncated r hwf, ?_⟩
  intro r hwf k hk bs limit count blkIdx h4 hc
  have hlen : ((encodeRecord r).take k).length = k := by
    rw [List.length_take]; omega
  rw [sstableDumpGo_cons_decode h4 hc]
  have hnone : decodeRecordAt ((encodeRecord r).take k) 0
      ((encodeRecord r).take k).length 0 = none := by
    rw [hlen]; exact decodeRecordAt_truncated r hwf k hk 0
  rw [decodeBlockGo_none ⟨by omega, hc⟩ hnone]
  simp

/-- Closed witness for C2: a one-byte varint window, and the 8-byte record
`[0, 3, 1, 5, 1, 2, 3, 9]` (flags 0, 3-byte key, 1-byte value, sequence 5)
truncated to its first 5 bytes. -/
theorem claim2_witness :
    (1 ≤ 1 ∧ 1 ≤ min 1 10) ∧
    decodeRecordAt
      ((encodeRecord ⟨false, false, false, false, 5, [], 0, [1, 2, 3],
        [9]⟩).take 5) 0 5 3 = none ∧
    sstableDumpGo
        [(encodeRecord ⟨false, false, false, false, 5, [], 0, [1, 2, 3],
          [9]⟩).take 5] 1000 0 0 =
      sstableDumpGo [] 1000 0 1 := by
  have hlen : (encodeRecord ⟨false, false, false, false, 5, [], 0, [1, 2, 3],
      [9]⟩) = [0, 3, 1, 5, 1, 2, 3, 9] := by
    simp [encodeRecord, encodeVarint, RecordSpec.flagsByte,
      RecordSpec.ttlField, RecordSpec.vlogField, RecordSpec.valueField]
  refine ⟨claim2_bounded_decode.1 [5] 0 1 1 5
    (by simp [decode_varint_safe, varintGo, byteAt]), ?_, ?_⟩
  · exact claim2_bounded_decode.2.2.2.1 _ (by decide) 5 (by rw [hlen]; decide)
      3
  · exact claim2_bounded_decode.2.2.2.2 _ (by decide) 5 (by rw [hlen]; decide)
      [] 1000 0 0 (by rw [hlen]; decide) (by decide)

/-- C4: cumulative delta-sequence reconstruction.  For a block holding an
absolute-sequence first record `r0` followed by `DELTA_SEQ` records with
deltas `d_1 .. d_N`, the decoded sequences are
`s_0, s_0 + d_1, s_0 + d_1 + d_2, ...` - whatever sequence the previous
block ended on; and the outer walk of `cmd_sstable_dump`
(src/main.c:1021-1023) hands every block to the record loop with `prev_seq`
reset to 0, so a `DELTA_SEQ` first record is decoded relative to 0, not to
the previous block. -/
theorem claim4_delta_seq :
    (∀ (r0 : RecordSpec) (rs : List RecordSpec) (prevSeq : Nat),
      r0.WF → (∀ r ∈ rs, r.WF) →
      r0.deltaSeq = false → (∀ r ∈ rs, r.deltaSeq = true) →
      r0.seqEnc + (rs.map RecordSpec.seqEnc).sum < 2 ^ 64 →
      (decodeBlockRecords (((r0 :: rs).map encodeRecord).flatten) 0
          (((r0 :: rs).map encodeRecord).flatten).length prevSeq).map
        DecodedRecord.seq =
        List.scanl (· + ·) r0.seqEnc (rs.map RecordSpec.seqEnc)) ∧
    (∀ (b : List Nat) (bs : List (List Nat)) (limit count blkIdx : Nat),
      ¬ b.length < 4 → count < limit →
      sstableDumpGo (b :: bs) limit count blkIdx =
        (decodeBlockGo b 0 b.length 0 limit count).1.map
            (fun r => (blkIdx, r)) ++
          sstableDumpGo bs limit
            (decodeBlockGo b 0 b.length 0 limit count).2 (blkIdx + 1)) := by
  refine ⟨?_, fun b bs limit count blkIdx h4 hc =>
    sstableDumpGo_cons_decode h4 hc⟩
  intro r0 rs prevSeq hwf0 hwfs hd0 hds hsum
  have h := decodeBlockRecords_encode (r0 :: rs) [] prevSeq
    (by intro r hr; rw [List.mem_cons] at hr
        rcases hr with h | h
        · exact h ▸ hwf0
        · exact hwfs r h)
  simp only [List.nil_append, List.length_nil] at h
  rw [h, decodedList]
  have hseq0 : (decodedOf r0 prevSeq).seq = r0.seqEnc := by
    rw [decodedOf]; dsimp only; rw [hd0]; rfl
  rw [List.map_cons, hseq0]
  rw [decodedList_delta_seqs rs r0.seqEnc hds hsum]
  exact scanl_head_tail

/-- Closed witness for C4: a block of two records - absolute sequence 10,
then a delta record with delta 3 - decoded with the previous block having
ended on sequence 42; the decoded sequences are 10 and 13. -/
theorem claim4_witness :
    (decodeBlockRecords
        ((([⟨false, false, false, false, 10, [], 0, [], []⟩,
            ⟨false, false, false, true, 3, [], 0, [], []⟩] :
          List RecordSpec).map encodeRecord).flatten) 0
        ((([⟨false, false, false, false, 10, [], 0, [], []⟩,
            ⟨false, false, false, true, 3, [], 0, [], []⟩] :
          List RecordSpec).map encodeRecord).flatten).length 42).map
      DecodedRecord.seq = [10, 13] := by
  have h := claim4_delta_seq.1 ⟨false, false, false, false, 10, [], 0, [], []⟩
    [⟨false, false, false, true, 3, [], 0, [], []⟩] 42 (by decide) (by decide)
    (by decide) (by decide) (by decide)
  rw [h]
  rfl

/-- Every record decodable from any scanned block appears among the
specification-side full-dump entries, tagged with its block's checksum
verdict. -/
theorem fullDumpSpecEntries_mem (checksum : List Nat → Nat)
    (vfile : Option (List Nat)) (file : List Nat) :
    ∀ (blocks : List (Nat × Nat)) (blkIdx : Nat) (pl : Nat × Nat),
    pl ∈ blocks →
    ∀ r ∈ decodeBlockRecords (sliceAt file (pl.1 + 8) pl.2) 0 pl.2 0,
    ∃ e ∈ fullDumpSpecEntries checksum vfile file blocks blkIdx,
      e.record = r ∧ e.checksumOk = blockChecksumOk checksum file pl ∧
      e.vlog = fullDumpAnnotate checksum vfile r := by
  intro blocks
  induction blocks with
  | nil => intro blkIdx pl hpl; simp at hpl
  | cons q rest ih =>
    intro blkIdx pl hpl r hr
    rw [List.mem_cons] at hpl
    rcases hpl with h | h
    · subst h
      refine ⟨⟨blkIdx, blockChecksumOk checksum file pl, r,
        fullDumpAnnotate checksum vfile r⟩, ?_, rfl, rfl, rfl⟩
      rw [fullDumpSpecEntries]
      exact List.mem_append_left _ (List.mem_map_of_mem _ hr)
    · obtain ⟨e, hmem, he⟩ := ih (blkIdx + 1) pl h r hr
      refine ⟨e, ?_, he⟩
      rw [fullDumpSpecEntries]
      exact List.mem_append_right _ hmem

/-- C6: a checksum mismatch is never fatal to the full dump.  With headroom
under the limit, the dump equals the compositional per-block specification:
every scanned block - mismatching ones included - contributes every record
decodable from it, each tagged with the block's checksum verdict and its
value-log annotation, and the reported error count is exactly the number of
mismatching scanned blocks; in particular each record of a mismatching
block still appears, flagged. -/
theorem claim6_checksum_nonfatal (checksum : List Nat → Nat)
    (vfile : Option (List Nat)) (file : List Nat) (limit : Nat)
    (hlim : scanRecordsTotal file (scanBlocks file 8) < limit) :
    cmd_sstable_dump_full checksum vfile file limit =
      (fullDumpSpecEntries checksum vfile file (scanBlocks file 8) 0,
        scanRecordsTotal file (scanBlocks file 8),
        ((scanBlocks file 8).filter
          (fun pl => ¬ blockChecksumOk checksum file pl = true)).length) ∧
    (∀ pl ∈ scanBlocks file 8,
      ∀ r ∈ decodeBlockRecords (sliceAt file (pl.1 + 8) pl.2) 0 pl.2 0,
      ∃ e ∈ (cmd_sstable_dump_full checksum vfile file limit).1,
        e.record = r ∧ e.checksumOk = blockChecksumOk checksum file pl ∧
        e.vlog = fullDumpAnnotate checksum vfile r) := by
  have hspec :=
    @fullDumpGo_spec checksum vfile file 8 limit 0 0 (by omega)
  constructor
  · rw [cmd_sstable_dump_full, hspec, Nat.zero_add]
  · intro pl hpl r hr
    obtain ⟨e, hmem, he⟩ :=
      fullDumpSpecEntries_mem checksum vfile file (scanBlocks file 8) 0 pl
        hpl r hr
    refine ⟨e, ?_, he⟩
    rw [cmd_sstable_dump_full, hspec]
    exact hmem

/-- Closed witness for C6: a file holding one block whose stored digest (1)
differs from the recomputed one (the digest function is constantly 0); its
record is still enumerated. -/
theorem claim6_witness :
    cmd_sstable_dump_full (fun _ => 0) none
        [0, 0, 0, 0, 0, 0, 0, 0, 4, 0, 0, 0, 1, 0, 0, 0, 0, 0, 0, 7,
          0, 0, 0, 0, 0, 0, 0, 0] 1000 =
      (fullDumpSpecEntries (fun _ => 0) none
          [0, 0, 0, 0, 0, 0, 0, 0, 4, 0, 0, 0, 1, 0, 0, 0, 0, 0, 0, 7,
            0, 0, 0, 0, 0, 0, 0, 0]
          (scanBlocks
            [0, 0, 0, 0, 0, 0, 0, 0, 4, 0, 0, 0, 1, 0, 0, 0, 0, 0, 0, 7,
              0, 0, 0, 0, 0, 0, 0, 0] 8) 0,
        scanRecordsTotal
          [0, 0, 0, 0, 0, 0, 0, 0, 4, 0, 0, 0, 1, 0, 0, 0, 0, 0, 0, 7,
            0, 0, 0, 0, 0, 0, 0, 0]
          (scanBlocks
            [0, 0, 0, 0, 0, 0, 0, 0, 4, 0, 0, 0, 1, 0, 0, 0, 0, 0, 0, 7,
              0, 0, 0, 0, 0, 0, 0, 0] 8),
        ((scanBlocks
            [0, 0, 0, 0, 0, 0, 0, 0, 4, 0, 0, 0, 1, 0, 0, 0, 0, 0, 0, 7,
              0, 0, 0, 0, 0, 0, 0, 0] 8).filter
          (fun pl =>
            ¬ blockChecksumOk (fun _ => 0)
                [0, 0, 0, 0, 0, 0, 0, 0, 4, 0, 0, 0, 1, 0, 0, 0, 0, 0, 0,
                  7, 0, 0, 0, 0, 0, 0, 0, 0] pl = true)).length) :=
  (claim6_checksum_nonfatal (fun _ => 0) none
    [0, 0, 0, 0, 0, 0, 0, 0, 4, 0, 0, 0, 1, 0, 0, 0, 0, 0, 0, 7,
      0, 0, 0, 0, 0, 0, 0, 0] 1000
    (by
      have hs : scanBlocks
          [0, 0, 0, 0, 0, 0, 0, 0, 4, 0, 0, 0, 1, 0, 0, 0, 0, 0, 0, 7,
            0, 0, 0, 0, 0, 0, 0, 0] 8 = [(8, 4)] := by
        rw [scanBlocks]
        norm_num [decode_uint32_le, leDecode, byteAt]
        rw [scanBlocks]
        norm_num
      rw [hs, scanRecordsTotal]
      simp only [List.map_cons, List.map_nil]
      have hr : decodeBlockRecords
          (sliceAt
            [0, 0, 0, 0, 0, 0, 0, 0, 4, 0, 0, 0, 1, 0, 0, 0, 0, 0, 0, 7,
              0, 0, 0, 0, 0, 0, 0, 0] (8 + 8) 4) 0 4 0 =
          decodeBlockRecords [0, 0, 0, 7] 0 4 0 := by
        norm_num [sliceAt]
      rw [hr]
      have hd : decodeRecordAt [0, 0, 0, 7] 0 4 0 =
          some (⟨0, 0, 0, 7, 0, 0, [], none⟩, 4, 0) := by
        simp [decodeRecordAt, decodeAfterSeq, decodeAfterTTL, decodeKeyValue,
          decode_varint_safe, varintGo, byteAt, TDB_KV_FLAG_HAS_TTL,
          TDB_KV_FLAG_HAS_VLOG, TDB_KV_FLAG_DELTA_SEQ, sliceAt]
      rw [decodeBlockRecords_some (by norm_num) hd,
        decodeBlockRecords_stop (by norm_num)]
      simp)).1

/-- C8: the direct positional scanner.  `cmd_sstable_checksum` scans from
byte offset 8 (the first scanned block sits at position 8), consecutive
scanned blocks are exactly `8 + payload_length + 8` bytes apart (header plus
payload plus skipped trailer), every block records its declared
little-endian payload length and is classified invalid-size exactly when
that length is zero or above 100 MiB, only the final scanned block can be
an invalid-size or short-read block (the scan stops there; a checksum
mismatch never stops it), the valid/invalid counts partition the scanned
blocks, and the terminal status is OK with return 0 exactly when no block
was invalid. -/
theorem claim8_positional_scan (checksum : List Nat → Nat) (file : List Nat) :
    (cmd_sstable_checksum checksum file).blocks =
      checksumScanGo checksum file 8 ∧
    (∀ e : Nat × Nat × BlockStatus,
      (checksumScanGo checksum file 8).head? = some e → e.1 = 8) ∧
    List.Chain' (fun a b : Nat × Nat × BlockStatus =>
      b.1 = a.1 + 8 + a.2.1 + 8) (checksumScanGo checksum file 8) ∧
    (∀ e ∈ checksumScanGo checksum file 8,
      e.2.1 = decode_uint32_le file e.1 ∧
      (e.2.2 = BlockStatus.invalidSize ↔ (decode_uint32_le file e.1 = 0 ∨
        100 * 1024 * 1024 < decode_uint32_le file e.1))) ∧
    (∀ e ∈ (checksumScanGo checksum file 8).dropLast,
      e.2.2 = BlockStatus.valid ∨ e.2.2 = BlockStatus.checksumMismatch) ∧
    (cmd_sstable_checksum checksum file).validBlocks +
      (cmd_sstable_checksum checksum file).invalidBlocks =
      (checksumScanGo checksum file 8).length ∧
    ((cmd_sstable_checksum checksum file).statusOk = true ↔
      (cmd_sstable_checksum checksum file).invalidBlocks = 0) ∧
    ((cmd_sstable_checksum checksum file).ret = 0 ↔
      (cmd_sstable_checksum checksum file).invalidBlocks = 0) := by
  refine ⟨rfl, fun e he => checksumScan_head he, checksumScan_chain,
    fun e he => checksumScan_size he, fun e he => checksumScan_stop he,
    length_filter_partition _, ?_, ?_⟩
  · rw [cmd_sstable_checksum]
    dsimp only
    exact decide_eq_true_iff
  · rw [cmd_sstable_checksum]
    dsimp only
    split
    · rename_i hlt
      constructor
      · intro hc
        exact absurd hc (by decide)
      · intro hc
        omega
    · rename_i hlt
      constructor
      · intro _
        omega
      · intro _
        rfl

/-- Closed witness for C8: a 28-byte file - 8-byte file header, then one
block of declared length 4 whose stored digest (1) differs from the
recomputed one (0). -/
theorem claim8_witness :
    ((8, 4, BlockStatus.checksumMismatch) : Nat × Nat × BlockStatus).1 = 8 ∧
    (((8, 4, BlockStatus.checksumMismatch) : Nat × Nat × BlockStatus).2.1 =
      decode_uint32_le
        [0, 0, 0, 0, 0, 0, 0, 0, 4, 0, 0, 0, 1, 0, 0, 0, 0, 0, 0, 7,
          0, 0, 0, 0, 0, 0, 0, 0]
        ((8, 4, BlockStatus.checksumMismatch) : Nat × Nat × BlockStatus).1 ∧
      (((8, 4, BlockStatus.checksumMismatch) :
          Nat × Nat × BlockStatus).2.2 = BlockStatus.invalidSize ↔
        (decode_uint32_le
            [0, 0, 0, 0, 0, 0, 0, 0, 4, 0, 0, 0, 1, 0, 0, 0, 0, 0, 0, 7,
              0, 0, 0, 0, 0, 0, 0, 0]
            ((8, 4, BlockStatus.checksumMismatch) :
              Nat × Nat × BlockStatus).1 = 0 ∨
          100 * 1024 * 1024 < decode_uint32_le
            [0, 0, 0, 0, 0, 0, 0, 0, 4, 0, 0, 0, 1, 0, 0, 0, 0, 0, 0, 7,
              0, 0, 0, 0, 0, 0, 0, 0]
            ((8, 4, BlockStatus.checksumMismatch) :
              Nat × Nat × BlockStatus).1))) := by
  have hs : checksumScanGo (fun _ => 0)
      [0, 0, 0, 0, 0, 0, 0, 0, 4, 0, 0, 0, 1, 0, 0, 0, 0, 0, 0, 7,
        0, 0, 0, 0, 0, 0, 0, 0] 8 =
      [(8, 4, BlockStatus.checksumMismatch)] := by
    rw [checksumScanGo]
    norm_num [decode_uint32_le, leDecode, byteAt]
    rw [checksumScanGo]
    norm_num
  exact ⟨(claim8_positional_scan (fun _ => 0)
      [0, 0, 0, 0, 0, 0, 0, 0, 4, 0, 0, 0, 1, 0, 0, 0, 0, 0, 0, 7,
        0, 0, 0, 0, 0, 0, 0, 0]).2.1
      (8, 4, BlockStatus.checksumMismatch) (by rw [hs]; rfl),
    (claim8_positional_scan (fun _ => 0)
      [0, 0, 0, 0, 0, 0, 0, 0, 4, 0, 0, 0, 1, 0, 0, 0, 0, 0, 0, 7,
        0, 0, 0, 0, 0, 0, 0, 0]).2.2.2.1
      (8, 4, BlockStatus.checksumMismatch) (by rw [hs]; simp)⟩

end Admintool
